import Mathlib

/-!
# Verification of the class-file parser, modified-UTF-8 codec, runtime
# constant pool and class-resolution engine

A shallow embedding, in Lean 4, of the core of a JVM class-file loader
written in Rust.  Byte streams are `List Nat` (each element a byte value),
machine integers are `Nat` with explicit masking where overflow matters,
and the Rust code's `panic!` calls are modelled as `Except` errors.

The embedding follows the Rust sources:
  * `src/parser/class_file.rs`   — the nom-based class-file parser;
  * `src/vm/constant_pool.rs`    — the runtime constant pool and the
                                   modified-UTF-8 codec;
  * `src/vm/class_loader.rs`     — the class-resolution engine;
  * `src/vm/mod.rs`              — `Class::new` / `Method::new`.
Modules that the sources import but that are absent from the repository
(`model::class_file::constant_pool`, `model::class_file::attribute`,
`vm::handle`, `vm::sig`, `util::*`) are modelled from the specification;
each such definition carries a doc comment starting `Modelled from the
spec:`.
-/

namespace JvmParse

/-- The constant-pool entry tags.

Modelled from the spec: the module `model::class_file::constant_pool`
(defining `Tag` and `Tag::from`) is absent from the sources.  The spec
lists the twelve entry kinds of the class-file constant pool; the numeric
tag values are the ones of the class-file format the spec describes
(`Utf8` = 1, `Integer` = 3, `Float` = 4, `Long` = 5, `Double` = 6,
`Class` = 7, `String` = 8, `FieldRef` = 9, `MethodRef` = 10,
`InterfaceMethodRef` = 11, `NameAndType` = 12, `MethodHandle` = 15,
`MethodType` = 16, `InvokeDynamic` = 18).  The `unusable` tag is the tag
of the placeholder slot that follows a `Long`/`Double` entry. -/
inductive CPTag where
  | class_
  | fieldRef
  | methodRef
  | interfaceMethodRef
  | string
  | integer
  | float
  | long
  | double
  | nameAndType
  | utf8
  | methodHandle
  | methodType
  | invokeDynamic
  | unusable
  | unknown (tag : Nat)
  deriving DecidableEq, Repr

/-- Modelled from the spec: `Tag::from(u8)` of the absent
`model::class_file::constant_pool` module; maps a tag byte to a `CPTag`. -/
def CPTag.fromByte (b : Nat) : CPTag :=
  if b = 7 then .class_
  else if b = 9 then .fieldRef
  else if b = 10 then .methodRef
  else if b = 11 then .interfaceMethodRef
  else if b = 8 then .string
  else if b = 3 then .integer
  else if b = 4 then .float
  else if b = 5 then .long
  else if b = 6 then .double
  else if b = 12 then .nameAndType
  else if b = 1 then .utf8
  else if b = 15 then .methodHandle
  else if b = 16 then .methodType
  else if b = 18 then .invokeDynamic
  else .unknown b

/-- The nine method-reference kinds of a `MethodHandle` entry
(`constant_pool::MethodReference` in the sources' parser). -/
inductive MethodReference where
  | getField (referenceIndex : Nat)
  | getStatic (referenceIndex : Nat)
  | putField (referenceIndex : Nat)
  | putStatic (referenceIndex : Nat)
  | invokeVirtual (referenceIndex : Nat)
  | invokeStatic (referenceIndex : Nat)
  | invokeSpecial (referenceIndex : Nat)
  | newInvokeSpecial (referenceIndex : Nat)
  | invokeInterface (referenceIndex : Nat)
  deriving DecidableEq, Repr

/-- Modelled from the spec: tag of the absent
`constant_pool::reference_kind` module (`1`–`9` in declaration order,
anything else `unknown`). -/
inductive RefKindTag where
  | getField | getStatic | putField | putStatic
  | invokeVirtual | invokeStatic | invokeSpecial
  | newInvokeSpecial | invokeInterface
  | unknown (tag : Nat)
  deriving DecidableEq, Repr

/-- Modelled from the spec: `reference_kind::Tag::from(u8)`. -/
def RefKindTag.fromByte (b : Nat) : RefKindTag :=
  if b = 1 then .getField
  else if b = 2 then .getStatic
  else if b = 3 then .putField
  else if b = 4 then .putStatic
  else if b = 5 then .invokeVirtual
  else if b = 6 then .invokeStatic
  else if b = 7 then .invokeSpecial
  else if b = 8 then .newInvokeSpecial
  else if b = 9 then .invokeInterface
  else .unknown b

/-- A parsed constant-pool entry (`ConstantPoolInfo` as constructed by the
parser in `src/parser/class_file.rs`; the defining module is absent, so
the variants and their fields are those the parser builds, plus the
`unusable` placeholder pushed after each `Long`/`Double`). -/
inductive CPInfo where
  | class_ (nameIndex : Nat)
  | fieldRef (classIndex nameAndTypeIndex : Nat)
  | methodRef (classIndex nameAndTypeIndex : Nat)
  | interfaceMethodRef (classIndex nameAndTypeIndex : Nat)
  | string (stringIndex : Nat)
  | integer (bytes : Nat)
  | float (bytes : Nat)
  | long (highBytes lowBytes : Nat)
  | double (highBytes lowBytes : Nat)
  | nameAndType (nameIndex descriptorIndex : Nat)
  | utf8 (bytes : List Nat)
  | methodHandle (reference : MethodReference)
  | methodType (descriptorIndex : Nat)
  | invokeDynamic (bootstrapMethodAttrIndex nameAndTypeIndex : Nat)
  | unusable
  deriving DecidableEq, Repr

/-- `ConstantPoolInfo::tag()`: the tag of an entry. -/
def CPInfo.tag : CPInfo → CPTag
  | .class_ _ => .class_
  | .fieldRef _ _ => .fieldRef
  | .methodRef _ _ => .methodRef
  | .interfaceMethodRef _ _ => .interfaceMethodRef
  | .string _ => .string
  | .integer _ => .integer
  | .float _ => .float
  | .long _ _ => .long
  | .double _ _ => .double
  | .nameAndType _ _ => .nameAndType
  | .utf8 _ => .utf8
  | .methodHandle _ => .methodHandle
  | .methodType _ => .methodType
  | .invokeDynamic _ _ => .invokeDynamic
  | .unusable => .unusable

/-- Modelled from the spec: the absent `ConstantPool` container is a
one-indexed table — "indexed 1..N, index 0 unused".  `entries` is the
zero-indexed vector the parser accumulates
(`ConstantPool::from_zero_indexed_vec`). -/
structure ConstantPool where
  entries : List CPInfo
  deriving DecidableEq, Repr

/-- Modelled from the spec: `ConstantPool::get(i)` looks up one-based
index `i`; index 0 and out-of-range indices yield `none`. -/
def ConstantPool.get (cp : ConstantPool) (i : Nat) : Option CPInfo :=
  if i = 0 then none else cp.entries[i - 1]?

set_option maxHeartbeats 1600000 in
/-- The parser's structured error type (`parser::class_file::Error`),
one constructor per variant of the Rust `enum Error`.  `String`-typed
fields are kept as decoded-name byte lists where the source stores a
`String` built from them. -/
inductive PError where
  | classFile
  | magic
  | constantPool (constantPoolCount : Nat)
  | constantPoolEntry (index : Nat)
  | constantPoolInfo
  | unknownConstantPoolTag (tag : Nat)
  | constantPoolIndexOutOfBounds (index : Nat)
  | unexpectedConstantPoolType (index : Nat) (expected actual : CPTag)
  | illegalModifiedUtf8 (byte : Nat)
  | modifiedUtf8 (length : Nat)
  | unknownConstantPoolMethodReferenceTag (tag : Nat)
  | interfaces (interfacesCount : Nat)
  | fields (fieldsCount : Nat)
  | fieldInfo
  | fieldAttributes (attributesCount : Nat)
  | methods (methodsCount : Nat)
  | methodInfo
  | methodAttributes (attributesCount : Nat)
  | classAttributes (attributesCount : Nat)
  | attribute
  | attributeInfo (attributeName : List Nat) (attributeNameIndex attributeLength : Nat)
  | attributeInfoNameIndexOutOfBounds (attributeNameIndex : Nat)
  | codeAttributes (attributesCount : Nat)
  | exceptionTableEntry
  | stackMapTable (numberOfEntries : Nat)
  | stackMapFrame
  | unknownStackMapFrameTag (tag : Nat)
  | reservedStackMapFrameTag (tag : Nat)
  | verificationTypeInfo
  | unknownVerificationTypeInfoTag (tag : Nat)
  | innerClasses (numberOfClasses : Nat)
  | innerClass
  | signature
  | methodParameters (parametersCount : Nat)
  | methodParameter
  | elementValuePair
  | elementValuePairs (numElementValuePairs : Nat)
  | elementValue
  | unknownElementValueTag (tag : Nat)
  | elementValueArray (numValues : Nat)
  | annotations (numAnnotations : Nat)
  | parameterAnnotations (numParameters : Nat)
  | typeAnnotations (numAnnotations : Nat)
  | unknownTargetTypeTag (tag : Nat)
  | localVariableTarget (tableLength : Nat)
  | typePath (pathLength : Nat)
  | sourceFile
  | sourceDebugExtension
  | lineNumberTable (tableLength : Nat)
  | lineNumberInfo
  | localVariableTable (tableLength : Nat)
  | localVariableInfo
  | localVariableTypeTable (tableLength : Nat)
  | localVariableTypeInfo
  deriving Repr

/-- A parse failure: either an unrecoverable error carrying the stack of
structural contexts pushed by `p_cut!` (innermost last; the base of the
stack is empty for failures of raw `nom` primitives such as `tag!`), or
an incomplete-input condition (`nom::Needed`) carrying the number of
bytes needed. -/
inductive PFail where
  | fail (stack : List PError)
  | incomplete (needed : Nat)
  /-- Embedding artifact: the recursive attribute parsers carry a fuel
  bound standing in for the source's unbounded call-stack recursion; a
  generous bound is supplied at the top level, so this outcome marks
  inputs whose recursion depth exceeds it and is never produced on the
  inputs studied here. -/
  | fuelExhausted
  deriving Repr

/-- A parser over byte lists: consumes a prefix of the input and returns
the value and the remaining input, or a failure. -/
def Parser (α : Type) : Type := List Nat → Except PFail (α × List Nat)

instance : Monad Parser where
  pure a := fun input => .ok (a, input)
  bind p f := fun input =>
    match p input with
    | .ok (a, rest) => f a rest
    | .error e => .error e

/-- `p_fail!(e)`: fail unrecoverably with error `e`. -/
def pfail {α : Type} (e : PError) : Parser α := fun _ => .error (.fail [e])

/-- `p_cut!(e, p)`: run `p`; on an unrecoverable failure, push the
context `e` onto the error stack (incomplete input passes through). -/
def pcut {α : Type} (e : PError) (p : Parser α) : Parser α := fun input =>
  match p input with
  | .ok r => .ok r
  | .error (.fail es) => .error (.fail (e :: es))
  | .error (.incomplete n) => .error (.incomplete n)
  | .error .fuelExhausted => .error .fuelExhausted

/-- `be_u8`: one byte. -/
def beU8 : Parser Nat := fun input =>
  match input with
  | [] => .error (.incomplete 1)
  | b :: rest => .ok (b, rest)

/-- `be_u16`: two bytes, big-endian. -/
def beU16 : Parser Nat := fun input =>
  match input with
  | b1 :: b0 :: rest => .ok (b1 * 256 + b0, rest)
  | _ => .error (.incomplete 2)

/-- `be_u32`: four bytes, big-endian. -/
def beU32 : Parser Nat := fun input =>
  match input with
  | b3 :: b2 :: b1 :: b0 :: rest =>
      .ok (((b3 * 256 + b2) * 256 + b1) * 256 + b0, rest)
  | _ => .error (.incomplete 4)

/-- `take!(n)`: exactly `n` raw bytes. -/
def takeP (n : Nat) : Parser (List Nat) := fun input =>
  if input.length < n then .error (.incomplete n)
  else .ok (input.take n, input.drop n)

/-- `tag!(bs)`: the exact byte sequence `bs` (a raw `nom` failure carries
an empty context stack). -/
def tagP (bs : List Nat) : Parser (List Nat) := fun input =>
  if input.length < bs.length then .error (.incomplete bs.length)
  else if input.take bs.length = bs then .ok (bs, input.drop bs.length)
  else .error (.fail [])

/-- `count!(p, n)`: `n` repetitions of `p`. -/
def countP {α : Type} (p : Parser α) : Nat → Parser (List α)
  | 0 => pure []
  | n + 1 => do
      let a ← p
      let as_ ← countP p n
      pure (a :: as_)

/-- `magic`: the fixed `0xCAFEBABE` prefix, under the `Magic` context. -/
def magicP : Parser (List Nat) := pcut .magic (tagP [0xCA, 0xFE, 0xBA, 0xBE])

/-- `cp_info_tag`: a constant-pool tag byte. -/
def cpInfoTag : Parser CPTag := do
  let b ← beU8
  pure (CPTag.fromByte b)

/-- `cp_index`: a two-byte constant-pool index. -/
def cpIndex : Parser Nat := beU16

/-- `check_cp_index_tag!`: look up one-based index `i` in the pool and
require the entry's tag to equal `tag`. -/
def checkCpIndexTag (cp : ConstantPool) (i : Nat) (tag : CPTag) :
    Except PFail Unit :=
  match cp.get i with
  | none => .error (.fail [.constantPoolIndexOutOfBounds i])
  | some r =>
      if r.tag = tag then .ok ()
      else .error (.fail [.unexpectedConstantPoolType i tag r.tag])

/-- `cp_index_tag`: parse a pool index and require a matching tag. -/
def cpIndexTag (cp : ConstantPool) (tag : CPTag) : Parser Nat := fun input => do
  let (i, rest) ← beU16 input
  let _ ← checkCpIndexTag cp i tag
  pure (i, rest)

/-- `maybe_cp_index_tag`: parse a pool index; zero means "absent", a
nonzero index must have a matching tag. -/
def maybeCpIndexTag (cp : ConstantPool) (tag : CPTag) : Parser Nat := fun input => do
  let (i, rest) ← beU16 input
  if i ≠ 0 then
    let _ ← checkCpIndexTag cp i tag
    pure (i, rest)
  else
    pure (i, rest)

/-- The set of bytes the `modified_utf8` byte parser rejects: `0x00` and
`0xF0`–`0xFF` (the literal list in the source). -/
def illegalMUtf8Bytes : List Nat :=
  [0x00, 0xf0, 0xf1, 0xf2, 0xf3, 0xf4, 0xf5, 0xf6, 0xf7, 0xf8, 0xf9,
   0xfa, 0xfb, 0xfc, 0xfd, 0xfe, 0xff]

/-- `modified_utf8`: one byte satisfying the not-illegal predicate;
an illegal byte `b` fails with `IllegalModifiedUtf8 { byte: b }`. -/
def modifiedUtf8 : Parser Nat := fun input =>
  match input with
  | [] => .error (.incomplete 1)
  | b :: rest =>
      if b ∈ illegalMUtf8Bytes then .error (.fail [.illegalModifiedUtf8 b])
      else .ok (b, rest)

/-- `take_modified_utf8!(n)`: `n` bytes each validated by
`modified_utf8`, under the `ModifiedUtf8 { length: n }` context. -/
def takeModifiedUtf8 (n : Nat) : Parser (List Nat) :=
  pcut (.modifiedUtf8 n) (countP modifiedUtf8 n)

/-- `reference_kind`: a method-handle reference-kind tag byte. -/
def referenceKind : Parser RefKindTag := do
  let b ← beU8
  pure (RefKindTag.fromByte b)

/-- `reference`: the reference-index payload of a `MethodHandle` entry,
dispatched on the reference kind. -/
def reference (tag : RefKindTag) : Parser MethodReference :=
  match tag with
  | .getField => do let ri ← cpIndex; pure (.getField ri)
  | .getStatic => do let ri ← cpIndex; pure (.getStatic ri)
  | .putField => do let ri ← cpIndex; pure (.putField ri)
  | .putStatic => do let ri ← cpIndex; pure (.putStatic ri)
  | .invokeVirtual => do let ri ← cpIndex; pure (.invokeVirtual ri)
  | .invokeStatic => do let ri ← cpIndex; pure (.invokeStatic ri)
  | .invokeSpecial => do let ri ← cpIndex; pure (.invokeSpecial ri)
  | .newInvokeSpecial => do let ri ← cpIndex; pure (.newInvokeSpecial ri)
  | .invokeInterface => do let ri ← cpIndex; pure (.invokeInterface ri)
  | .unknown t => pfail (.unknownConstantPoolMethodReferenceTag t)

/-- `cp_info_info`: the payload of a constant-pool entry, dispatched on
its tag.  Note that the index fields of `FieldRef`/`MethodRef`/… entries
are read as plain `cp_index` values: no tag validation against the pool
happens here. -/
def cpInfoInfo (tag : CPTag) : Parser CPInfo :=
  match tag with
  | .class_ => do let ci ← cpIndex; pure (.class_ ci)
  | .fieldRef => do
      let ci ← cpIndex; let nti ← cpIndex; pure (.fieldRef ci nti)
  | .methodRef => do
      let ci ← cpIndex; let nti ← cpIndex; pure (.methodRef ci nti)
  | .interfaceMethodRef => do
      let ci ← cpIndex; let nti ← cpIndex; pure (.interfaceMethodRef ci nti)
  | .string => do let si ← cpIndex; pure (.string si)
  | .integer => do let bs ← beU32; pure (.integer bs)
  | .float => do let bs ← beU32; pure (.float bs)
  | .long => do let hi ← beU32; let lo ← beU32; pure (.long hi lo)
  | .double => do let hi ← beU32; let lo ← beU32; pure (.double hi lo)
  | .nameAndType => do
      let ni ← cpIndex; let di ← cpIndex; pure (.nameAndType ni di)
  | .utf8 => do
      let len ← beU16
      let bs ← takeModifiedUtf8 len
      pure (.utf8 bs)
  | .methodHandle => do
      let rk ← referenceKind
      let r ← reference rk
      pure (.methodHandle r)
  | .methodType => do let di ← cpIndex; pure (.methodType di)
  | .invokeDynamic => do
      let bmai ← cpIndex; let nti ← cpIndex; pure (.invokeDynamic bmai nti)
  | .unusable => pfail (.unknownConstantPoolTag 0)
  | .unknown t => pfail (.unknownConstantPoolTag t)

/-- `cp_info`: a whole constant-pool entry (tag byte then payload), under
the `ConstantPoolInfo` context. -/
def cpInfo : Parser CPInfo :=
  pcut .constantPoolInfo (do
    let tag ← cpInfoTag
    cpInfoInfo tag)

/-- `attribute::ExceptionTableEntry` as the parser constructs it. -/
structure ExceptionTableEntry where
  startPc : Nat
  endPc : Nat
  handlerPc : Nat
  catchType : Nat
  deriving DecidableEq, Repr

/-- `exception_table`: one exception-table entry; `catch_type` is an
optional reference that, when nonzero, must point at a `Class` entry. -/
def exceptionTableP (cp : ConstantPool) : Parser ExceptionTableEntry :=
  pcut .exceptionTableEntry (do
    let startPc ← beU16
    let endPc ← beU16
    let handlerPc ← beU16
    let catchType ← maybeCpIndexTag cp .class_
    pure ⟨startPc, endPc, handlerPc, catchType⟩)

/-- Modelled from the spec: the verification-type tags of the absent
`stack_map_frame::verification_type_info` module, with the class-file
format's numeric values (`Top` = 0, `Integer` = 1, `Float` = 2,
`Double` = 3, `Long` = 4, `Null` = 5, `UninitializedThis` = 6,
`Object` = 7, `Uninitialized` = 8). -/
inductive VTITag where
  | top | integer | float | long | double | null | uninitializedThis
  | object | uninitialized
  | unknown (tag : Nat)
  deriving DecidableEq, Repr

/-- Modelled from the spec: `verification_type_info::Tag::from(u8)`. -/
def VTITag.fromByte (b : Nat) : VTITag :=
  if b = 0 then .top
  else if b = 1 then .integer
  else if b = 2 then .float
  else if b = 3 then .double
  else if b = 4 then .long
  else if b = 5 then .null
  else if b = 6 then .uninitializedThis
  else if b = 7 then .object
  else if b = 8 then .uninitialized
  else .unknown b

/-- `attribute::stack_map_frame::VerificationTypeInfo` as the parser
constructs it. -/
inductive VerificationTypeInfo where
  | top
  | integer
  | float
  | long
  | double
  | null
  | uninitializedThis
  | object (classIndex : Nat)
  | uninitialized (offset : Nat)
  deriving DecidableEq, Repr

/-- `verification_type_info_tag`: a verification-type tag byte. -/
def verificationTypeInfoTag : Parser VTITag := do
  let b ← beU8
  pure (VTITag.fromByte b)

/-- `verification_type_info`: a verification-type item; an `Object` item
must reference a `Class` pool entry. -/
def verificationTypeInfoP (cp : ConstantPool) : Parser VerificationTypeInfo :=
  pcut .verificationTypeInfo (fun input => do
    let (tag, input) ← verificationTypeInfoTag input
    match tag with
    | .top => pure (.top, input)
    | .integer => pure (.integer, input)
    | .float => pure (.float, input)
    | .long => pure (.long, input)
    | .double => pure (.double, input)
    | .null => pure (.null, input)
    | .uninitializedThis => pure (.uninitializedThis, input)
    | .object => do
        let (i, input) ← cpIndex input
        let _ ← checkCpIndexTag cp i .class_
        pure (.object i, input)
    | .uninitialized => do
        let (offset, input) ← beU16 input
        pure (.uninitialized offset, input)
    | .unknown t => .error (.fail [.unknownVerificationTypeInfoTag t]))

/-- Modelled from the spec: the frame tags of the absent
`attribute::stack_map_frame` module.  The spec's partition of the tag
byte: 0–63 `SameFrame`, 64–127 `SameLocals1StackItemFrame`, 128–246
reserved, 247 `SameLocals1StackItemFrameExtended`, 248–250 `ChopFrame`,
251 `SameFrameExtended`, 252–254 `AppendFrame`, 255 `FullFrame`; each
variant carries the raw tag value. -/
inductive SMFTag where
  | sameFrame (tag : Nat)
  | sameLocals1StackItemFrame (tag : Nat)
  | sameLocals1StackItemFrameExtended (tag : Nat)
  | chopFrame (tag : Nat)
  | sameFrameExtended (tag : Nat)
  | appendFrame (tag : Nat)
  | fullFrame (tag : Nat)
  | reserved (tag : Nat)
  | unknown (tag : Nat)
  deriving DecidableEq, Repr

/-- Modelled from the spec: `stack_map_frame::Tag::from(u8)`, realizing
the spec's partition of the tag byte into frame-kind ranges. -/
def SMFTag.fromByte (b : Nat) : SMFTag :=
  if b ≤ 63 then .sameFrame b
  else if b ≤ 127 then .sameLocals1StackItemFrame b
  else if b ≤ 246 then .reserved b
  else if b = 247 then .sameLocals1StackItemFrameExtended b
  else if b ≤ 250 then .chopFrame b
  else if b = 251 then .sameFrameExtended b
  else if b ≤ 254 then .appendFrame b
  else if b = 255 then .fullFrame b
  else .unknown b

/-- `attribute::StackMapFrame` as the parser constructs it (the defining
module is absent; the fields are the ones the parser fills in, including
`ChopFrame`'s `num_chopped`). -/
inductive StackMapFrame where
  | sameFrame (offsetDelta : Nat)
  | sameLocals1StackItemFrame (offsetDelta : Nat) (stackItem : VerificationTypeInfo)
  | sameLocals1StackItemFrameExtended (offsetDelta : Nat) (stackItem : VerificationTypeInfo)
  | chopFrame (offsetDelta numChopped : Nat)
  | sameFrameExtended (offsetDelta : Nat)
  | appendFrame (offsetDelta : Nat) (locals : List VerificationTypeInfo)
  | fullFrame (offsetDelta : Nat) (locals stack : List VerificationTypeInfo)
  deriving DecidableEq, Repr

/-- `stack_map_frame_info`: the frame payload for a given frame tag. -/
def stackMapFrameInfo (tag : SMFTag) (cp : ConstantPool) : Parser StackMapFrame :=
  match tag with
  | .sameFrame t => pure (.sameFrame t)
  | .sameLocals1StackItemFrame t => do
      let stackItem ← verificationTypeInfoP cp
      pure (.sameLocals1StackItemFrame (t - 64) stackItem)
  | .sameLocals1StackItemFrameExtended _ => do
      let offsetDelta ← beU16
      let stackItem ← verificationTypeInfoP cp
      pure (.sameLocals1StackItemFrameExtended offsetDelta stackItem)
  | .chopFrame t => do
      let offsetDelta ← beU16
      pure (.chopFrame offsetDelta (251 - t))
  | .sameFrameExtended _ => do
      let offsetDelta ← beU16
      pure (.sameFrameExtended offsetDelta)
  | .appendFrame t => do
      let offsetDelta ← beU16
      let locals ← countP (verificationTypeInfoP cp) (t - 251)
      pure (.appendFrame offsetDelta locals)
  | .fullFrame _ => do
      let offsetDelta ← beU16
      let numLocals ← beU16
      let locals ← countP (verificationTypeInfoP cp) numLocals
      let numStack ← beU16
      let stack ← countP (verificationTypeInfoP cp) numStack
      pure (.fullFrame offsetDelta locals stack)
  | .reserved t => pfail (.reservedStackMapFrameTag t)
  | .unknown t => pfail (.unknownStackMapFrameTag t)

/-- `stack_map_frame`: a tag byte then the frame payload, under the
`StackMapFrame` context. -/
def stackMapFrameP (cp : ConstantPool) : Parser StackMapFrame :=
  pcut .stackMapFrame (do
    let b ← beU8
    stackMapFrameInfo (SMFTag.fromByte b) cp)

/-- `attribute::LineNumberInfo`. -/
structure LineNumberInfo where
  startPc : Nat
  lineNumber : Nat
  deriving DecidableEq, Repr

/-- `line_number_info`. -/
def lineNumberInfoP : Parser LineNumberInfo :=
  pcut .lineNumberInfo (do
    let startPc ← beU16
    let lineNumber ← beU16
    pure ⟨startPc, lineNumber⟩)

/-- `attribute::LocalVariableInfo`. -/
structure LocalVariableInfo where
  startPc : Nat
  length : Nat
  nameIndex : Nat
  descriptorIndex : Nat
  index : Nat
  deriving DecidableEq, Repr

/-- `local_variable_info`. -/
def localVariableInfoP : Parser LocalVariableInfo :=
  pcut .localVariableInfo (do
    let startPc ← beU16
    let length ← beU16
    let nameIndex ← beU16
    let descriptorIndex ← beU16
    let index ← beU16
    pure ⟨startPc, length, nameIndex, descriptorIndex, index⟩)

/-- `attribute::LocalVariableTypeInfo`. -/
structure LocalVariableTypeInfo where
  startPc : Nat
  length : Nat
  nameIndex : Nat
  signatureIndex : Nat
  index : Nat
  deriving DecidableEq, Repr

/-- `local_variable_type_info`. -/
def localVariableTypeInfoP : Parser LocalVariableTypeInfo :=
  pcut .localVariableTypeInfo (do
    let startPc ← beU16
    let length ← beU16
    let nameIndex ← beU16
    let signatureIndex ← beU16
    let index ← beU16
    pure ⟨startPc, length, nameIndex, signatureIndex, index⟩)

/-- `attribute::InnerClass` as the parser constructs it. -/
structure InnerClass where
  innerClassInfoIndex : Nat
  outerClassInfoIndex : Nat
  innerNameIndex : Nat
  innerClassAccessFlags : Nat
  deriving DecidableEq, Repr

/-- `inner_class`. -/
def innerClassP (cp : ConstantPool) : Parser InnerClass :=
  pcut .innerClass (do
    let innerClassInfoIndex ← cpIndexTag cp .class_
    let outerClassInfoIndex ← maybeCpIndexTag cp .class_
    let innerNameIndex ← maybeCpIndexTag cp .utf8
    let innerClassAccessFlags ← beU16
    pure ⟨innerClassInfoIndex, outerClassInfoIndex, innerNameIndex,
          innerClassAccessFlags⟩)

/-- `attribute::MethodParameter` as the parser constructs it. -/
structure MethodParameter where
  nameIndex : Nat
  accessFlags : Nat
  deriving DecidableEq, Repr

/-- `method_parameter`. -/
def methodParameterP (cp : ConstantPool) : Parser MethodParameter :=
  pcut .methodParameter (do
    let nameIndex ← maybeCpIndexTag cp .utf8
    let accessFlags ← beU16
    pure ⟨nameIndex, accessFlags⟩)

/-- Modelled from the spec: element-value tags of the absent
`annotation::element_value` module; the tag byte is the ASCII character
the class-file format assigns to each element kind. -/
inductive EVTag where
  | byte | char | double | float | int | long | short | boolean
  | string | enum | class_ | annot | array
  | unknown (tag : Nat)
  deriving DecidableEq, Repr

/-- Modelled from the spec: `element_value::Tag::from(u8)` (ASCII
`B C D F I J S Z s e c @ [`). -/
def EVTag.fromByte (b : Nat) : EVTag :=
  if b = 66 then .byte
  else if b = 67 then .char
  else if b = 68 then .double
  else if b = 70 then .float
  else if b = 73 then .int
  else if b = 74 then .long
  else if b = 83 then .short
  else if b = 90 then .boolean
  else if b = 115 then .string
  else if b = 101 then .enum
  else if b = 99 then .class_
  else if b = 64 then .annot
  else if b = 91 then .array
  else .unknown b

mutual
/-- `attribute::annotation::ElementValue` as the parser constructs it. -/
inductive ElementValue where
  | byte (constValueIndex : Nat)
  | char (constValueIndex : Nat)
  | double (constValueIndex : Nat)
  | float (constValueIndex : Nat)
  | int (constValueIndex : Nat)
  | long (constValueIndex : Nat)
  | short (constValueIndex : Nat)
  | boolean (constValueIndex : Nat)
  | string (constValueIndex : Nat)
  | enum (typeNameIndex constNameIndex : Nat)
  | class_ (classInfoIndex : Nat)
  | annotationValue (annotationValue : AnnotationInfo)
  | array (values : List ElementValue)

/-- `attribute::annotation::ElementValuePair`. -/
inductive ElementValuePair where
  | mk (elementNameIndex : Nat) (value : ElementValue)

/-- `attribute::annotation::AnnotationInfo`. -/
inductive AnnotationInfo where
  | mk (typeIndex : Nat) (elementValuePairs : List ElementValuePair)
end

/-- `attribute::annotation::LocalVariableTargetInfo`. -/
structure LocalVariableTargetInfo where
  startPc : Nat
  length : Nat
  index : Nat
  deriving DecidableEq, Repr

/-- `attribute::annotation::TargetInfo` as the parser constructs it. -/
inductive TargetInfo where
  | typeParameter (typeParameterIndex : Nat)
  | supertype (supertypeIndex : Nat)
  | typeParameterBound (typeParameterIndex boundIndex : Nat)
  | empty
  | formalParameter (formalParameterIndex : Nat)
  | throws (throwsTypeIndex : Nat)
  | localVariable (table : List LocalVariableTargetInfo)
  | catch (exceptionTableIndex : Nat)
  | offset (offset : Nat)
  | typeArgument (offset typeArgumentIndex : Nat)
  deriving DecidableEq, Repr

/-- Modelled from the spec: target-type tags of the absent
`annotation::target_type` module.  The class-file format's target types
are byte ranges; the parser needs only the kind, so the modelled
`fromByte` groups the format's target-type bytes by the payload shape
the parser reads (`0x00`–`0x01` type parameter, `0x10` supertype,
`0x11`–`0x12` type-parameter bound, `0x13`–`0x15` empty, `0x16` formal
parameter, `0x17` throws, `0x40`–`0x41` local variable, `0x42` catch,
`0x43`–`0x46` offset, `0x47`–`0x4B` type argument). -/
inductive TTTag where
  | typeParameter | supertype | typeParameterBound | empty
  | formalParameter | throws | localVariable | catch | offset
  | typeArgument
  | unknown (tag : Nat)
  deriving DecidableEq, Repr

/-- Modelled from the spec: `target_type::Tag::from(u8)`. -/
def TTTag.fromByte (b : Nat) : TTTag :=
  if b ≤ 0x01 then .typeParameter
  else if b = 0x10 then .supertype
  else if b = 0x11 ∨ b = 0x12 then .typeParameterBound
  else if b = 0x13 ∨ b = 0x14 ∨ b = 0x15 then .empty
  else if b = 0x16 then .formalParameter
  else if b = 0x17 then .throws
  else if b = 0x40 ∨ b = 0x41 then .localVariable
  else if b = 0x42 then .catch
  else if 0x43 ≤ b ∧ b ≤ 0x46 then .offset
  else if 0x47 ≤ b ∧ b ≤ 0x4B then .typeArgument
  else .unknown b

/-- `target_info`: the target of a type annotation. -/
def targetInfoP : Parser TargetInfo := fun input => do
  let (b, input) ← beU8 input
  match TTTag.fromByte b with
  | .typeParameter => do
      let (i, input) ← beU8 input
      pure (.typeParameter i, input)
  | .supertype => do
      let (i, input) ← beU16 input
      pure (.supertype i, input)
  | .typeParameterBound => do
      let (tpi, input) ← beU8 input
      let (bi, input) ← beU8 input
      pure (.typeParameterBound tpi bi, input)
  | .empty => pure (.empty, input)
  | .formalParameter => do
      let (i, input) ← beU8 input
      pure (.formalParameter i, input)
  | .throws => do
      let (i, input) ← beU16 input
      pure (.throws i, input)
  | .localVariable => do
      let (tableLength, input) ← beU16 input
      let (table, input) ← pcut (.localVariableTarget tableLength)
        (countP (do
          let startPc ← beU16
          let length ← beU16
          let index ← beU16
          pure (LocalVariableTargetInfo.mk startPc length index)) tableLength)
        input
      pure (.localVariable table, input)
  | .catch => do
      let (i, input) ← beU16 input
      pure (.catch i, input)
  | .offset => do
      let (i, input) ← beU16 input
      pure (.offset i, input)
  | .typeArgument => do
      let (offset, input) ← beU16 input
      let (tai, input) ← beU8 input
      pure (.typeArgument offset tai, input)
  | .unknown t => .error (.fail [.unknownTargetTypeTag t])

/-- `attribute::annotation::TypePathPart`. -/
structure TypePathPart where
  typePathKind : Nat
  typeArgumentIndex : Nat
  deriving DecidableEq, Repr

/-- `attribute::annotation::TypePath`. -/
structure TypePath where
  path : List TypePathPart
  deriving DecidableEq, Repr

/-- `type_path`. -/
def typePathP : Parser TypePath := do
  let pathLength ← beU8
  let path ← pcut (.typePath pathLength)
    (countP (do
      let typePathKind ← beU8
      let typeArgumentIndex ← beU8
      pure (TypePathPart.mk typePathKind typeArgumentIndex)) pathLength)
  pure ⟨path⟩

/-- `attribute::annotation::TypeAnnotation`. -/
structure TypeAnnotation where
  targetInfo : TargetInfo
  targetPath : TypePath
  typeIndex : Nat
  elementValuePairs : List ElementValuePair

/-- `AttributeInfo` as the parser constructs it (the defining
`model::class_file::attribute` module is absent; the variants and fields
are the ones `attribute_info_switch` builds). -/
inductive AttributeInfo where
  | constantValue (constantValueIndex : Nat)
  | code (maxStack maxLocals : Nat) (code : List Nat)
      (exceptionTable : List ExceptionTableEntry)
      (attributes : List AttributeInfo)
  | stackMapTable (entries : List StackMapFrame)
  | exceptions (exceptionIndexTable : List Nat)
  | innerClasses (classes : List InnerClass)
  | enclosingMethod (classIndex methodIndex : Nat)
  | synthetic
  | signature (signatureIndex : Nat)
  | runtimeVisibleAnnotations (annotations : List AnnotationInfo)
  | runtimeInvisibleAnnotations (annotations : List AnnotationInfo)
  | runtimeVisibleParameterAnnotations (parameterAnnotations : List (List AnnotationInfo))
  | runtimeInvisibleParameterAnnotations (parameterAnnotations : List (List AnnotationInfo))
  | runtimeVisibleTypeAnnotations (annotations : List TypeAnnotation)
  | runtimeInvisibleTypeAnnotations (annotations : List TypeAnnotation)
  | annotationDefault (defaultValue : ElementValue)
  | methodParameters (parameters : List MethodParameter)
  | sourceFile (sourcefileIndex : Nat)
  | sourceDebugExtension (debugExtension : List Nat)
  | lineNumberTable (lineNumberTable : List LineNumberInfo)
  | localVariableTable (localVariableTable : List LocalVariableInfo)
  | localVariableTypeTable (localVariableTypeTable : List LocalVariableTypeInfo)
  | deprecated
  | unknown (attributeNameIndex : Nat) (info : List Nat)

/-- The byte string of an ASCII attribute name, for the byte-slice
comparisons of `attribute_info_switch`. -/
def strBytes (s : String) : List Nat := s.toList.map Char.toNat

mutual

/-- `element_value`: a tag byte (under the `ElementValue` context) then
the payload for that tag. -/
def elementValueP (cp : ConstantPool) : Nat → Parser ElementValue
  | 0 => fun _ => .error .fuelExhausted
  | fuel + 1 => fun input => do
      let (tag, input) ← pcut .elementValue (do
        let b ← beU8
        pure (EVTag.fromByte b)) input
      match tag with
      | .byte => do
          let (i, input) ← cpIndexTag cp .integer input
          pure (.byte i, input)
      | .char => do
          let (i, input) ← cpIndexTag cp .integer input
          pure (.char i, input)
      | .double => do
          let (i, input) ← cpIndexTag cp .double input
          pure (.double i, input)
      | .float => do
          let (i, input) ← cpIndexTag cp .float input
          pure (.float i, input)
      | .int => do
          let (i, input) ← cpIndexTag cp .integer input
          pure (.int i, input)
      | .long => do
          let (i, input) ← cpIndexTag cp .long input
          pure (.long i, input)
      | .short => do
          let (i, input) ← cpIndexTag cp .integer input
          pure (.short i, input)
      | .boolean => do
          let (i, input) ← cpIndexTag cp .integer input
          pure (.boolean i, input)
      | .string => do
          let (i, input) ← cpIndexTag cp .utf8 input
          pure (.string i, input)
      | .enum => do
          let (tni, input) ← cpIndexTag cp .utf8 input
          let (cni, input) ← cpIndexTag cp .utf8 input
          pure (.enum tni cni, input)
      | .class_ => do
          let (i, input) ← cpIndexTag cp .utf8 input
          pure (.class_ i, input)
      | .annot => do
          let (a, input) ← annotationP cp fuel input
          pure (.annotationValue a, input)
      | .array => do
          let (numValues, input) ← beU16 input
          let (values, input) ← pcut (.elementValueArray numValues)
            (countP (elementValueP cp fuel) numValues) input
          pure (.array values, input)
      | .unknown t => .error (.fail [.unknownElementValueTag t])

/-- `element_value_pair`: an element name (`Utf8` reference) and its
value, under the `ElementValuePair` context. -/
def elementValuePairP (cp : ConstantPool) : Nat → Parser ElementValuePair
  | 0 => fun _ => .error .fuelExhausted
  | fuel + 1 =>
      pcut .elementValuePair (do
        let eni ← cpIndexTag cp .utf8
        let value ← elementValueP cp fuel
        pure (ElementValuePair.mk eni value))

/-- `element_value_pairs`: a count then that many pairs. -/
def elementValuePairsP (cp : ConstantPool) : Nat → Parser (List ElementValuePair)
  | 0 => fun _ => .error .fuelExhausted
  | fuel + 1 => do
      let numPairs ← beU16
      pcut (.elementValuePairs numPairs)
        (countP (elementValuePairP cp fuel) numPairs)

/-- `annotation`: a type index (`Utf8` reference) then the
element-value pairs. -/
def annotationP (cp : ConstantPool) : Nat → Parser AnnotationInfo
  | 0 => fun _ => .error .fuelExhausted
  | fuel + 1 => do
      let typeIndex ← cpIndexTag cp .utf8
      let pairs ← elementValuePairsP cp fuel
      pure (AnnotationInfo.mk typeIndex pairs)

/-- `annotations`: a count then that many annotations. -/
def annotationsP (cp : ConstantPool) : Nat → Parser (List AnnotationInfo)
  | 0 => fun _ => .error .fuelExhausted
  | fuel + 1 => do
      let numAnnots ← beU16
      pcut (.annotations numAnnots) (countP (annotationP cp fuel) numAnnots)

/-- `parameter_annotations`: a parameter count then an annotation list
per parameter. -/
def parameterAnnotationsP (cp : ConstantPool) : Nat → Parser (List (List AnnotationInfo))
  | 0 => fun _ => .error .fuelExhausted
  | fuel + 1 => do
      let numParameters ← beU16
      pcut (.parameterAnnotations numParameters)
        (countP (annotationsP cp fuel) numParameters)

/-- `type_annotation`: target info, target path, type index, pairs. -/
def typeAnnotationP (cp : ConstantPool) : Nat → Parser TypeAnnotation
  | 0 => fun _ => .error .fuelExhausted
  | fuel + 1 => do
      let targetInfo ← targetInfoP
      let targetPath ← typePathP
      let typeIndex ← cpIndexTag cp .utf8
      let pairs ← elementValuePairsP cp fuel
      pure ⟨targetInfo, targetPath, typeIndex, pairs⟩

/-- `type_annotations`: a count then that many type annotations. -/
def typeAnnotationsP (cp : ConstantPool) : Nat → Parser (List TypeAnnotation)
  | 0 => fun _ => .error .fuelExhausted
  | fuel + 1 => do
      let numAnnotations ← beU16
      pcut (.typeAnnotations numAnnotations)
        (countP (typeAnnotationP cp fuel) numAnnotations)

/-- `attribute_info_switch`: dispatch on the decoded attribute name;
any unrecognized name takes exactly `attributeLength` raw bytes. -/
def attributeInfoSwitch (cp : ConstantPool) (attributeName : List Nat)
    (attributeNameIndex attributeLength : Nat) :
    Nat → Parser AttributeInfo
  | 0 => fun _ => .error .fuelExhausted
  | fuel + 1 =>
      if attributeName = strBytes "ConstantValue" then do
        let ci ← cpIndex
        pure (.constantValue ci)
      else if attributeName = strBytes "Code" then do
        let maxStack ← beU16
        let maxLocals ← beU16
        let codeLength ← beU32
        let code ← takeP codeLength
        let exceptionTableLength ← beU16
        let exceptionTable ← countP (exceptionTableP cp) exceptionTableLength
        let attributesCount ← beU16
        let attributes ← pcut (.codeAttributes attributesCount)
          (countP (attributeP cp fuel) attributesCount)
        pure (.code maxStack maxLocals code exceptionTable attributes)
      else if attributeName = strBytes "StackMapTable" then do
        let count ← beU16
        let entries ← pcut (.stackMapTable count)
          (countP (stackMapFrameP cp) count)
        pure (.stackMapTable entries)
      else if attributeName = strBytes "Exceptions" then do
        let exceptionsCount ← beU16
        let exceptionIndexTable ←
          countP (cpIndexTag cp .class_) exceptionsCount
        pure (.exceptions exceptionIndexTable)
      else if attributeName = strBytes "InnerClasses" then do
        let numberOfClasses ← beU16
        let classes ← pcut (.innerClasses numberOfClasses)
          (countP (innerClassP cp) numberOfClasses)
        pure (.innerClasses classes)
      else if attributeName = strBytes "EnclosingMethod" then do
        let classIndex ← cpIndexTag cp .class_
        let methodIndex ← cpIndexTag cp .nameAndType
        pure (.enclosingMethod classIndex methodIndex)
      else if attributeName = strBytes "Synthetic" then
        pure .synthetic
      else if attributeName = strBytes "Signature" then
        pcut .signature (do
          let si ← cpIndexTag cp .utf8
          pure (.signature si))
      else if attributeName = strBytes "RuntimeVisibleAnnotations" then do
        let annots ← annotationsP cp fuel
        pure (.runtimeVisibleAnnotations annots)
      else if attributeName = strBytes "RuntimeInvisibleAnnotations" then do
        let annots ← annotationsP cp fuel
        pure (.runtimeInvisibleAnnotations annots)
      else if attributeName = strBytes "RuntimeVisibleParameterAnnotations" then do
        let paramAnnots ← parameterAnnotationsP cp fuel
        pure (.runtimeVisibleParameterAnnotations paramAnnots)
      else if attributeName = strBytes "RuntimeInvisibleParameterAnnotations" then do
        let paramAnnots ← parameterAnnotationsP cp fuel
        pure (.runtimeInvisibleParameterAnnotations paramAnnots)
      else if attributeName = strBytes "RuntimeVisibleTypeAnnotations" then do
        let typeAnnots ← typeAnnotationsP cp fuel
        pure (.runtimeVisibleTypeAnnotations typeAnnots)
      else if attributeName = strBytes "RuntimeInvisibleTypeAnnotations" then do
        let typeAnnots ← typeAnnotationsP cp fuel
        pure (.runtimeInvisibleTypeAnnotations typeAnnots)
      else if attributeName = strBytes "AnnotationDefault" then do
        let ev ← elementValueP cp fuel
        pure (.annotationDefault ev)
      else if attributeName = strBytes "MethodParameters" then do
        let parametersCount ← beU16
        let parameters ← pcut (.methodParameters parametersCount)
          (countP (methodParameterP cp) parametersCount)
        pure (.methodParameters parameters)
      else if attributeName = strBytes "SourceFile" then do
        let si ← cpIndexTag cp .utf8
        pure (.sourceFile si)
      else if attributeName = strBytes "SourceDebugExtension" then
        pcut .sourceDebugExtension (do
          let bs ← takeP attributeLength
          pure (.sourceDebugExtension bs))
      else if attributeName = strBytes "LineNumberTable" then do
        let tableLength ← beU16
        let table ← pcut (.lineNumberTable tableLength)
          (countP lineNumberInfoP tableLength)
        pure (.lineNumberTable table)
      else if attributeName = strBytes "LocalVariableTable" then do
        let tableLength ← beU16
        let table ← pcut (.localVariableTable tableLength)
          (countP localVariableInfoP tableLength)
        pure (.localVariableTable table)
      else if attributeName = strBytes "LocalVariableTypeTable" then do
        let tableLength ← beU16
        let table ← pcut (.localVariableTypeTable tableLength)
          (countP localVariableTypeInfoP tableLength)
        pure (.localVariableTypeTable table)
      else if attributeName = strBytes "Deprecated" then
        pure .deprecated
      else do
        let bs ← takeP attributeLength
        pure (.unknown attributeNameIndex bs)

/-- `attribute_info`: look up the attribute-name entry; it must be in
range and a `Utf8` entry; then dispatch on the name bytes under the
`AttributeInfo` context (which records the raw name bytes where the
source records their decoded string). -/
def attributeInfoP (cp : ConstantPool)
    (attributeNameIndex attributeLength : Nat) :
    Nat → Parser AttributeInfo
  | 0 => fun _ => .error .fuelExhausted
  | fuel + 1 =>
      match cp.get attributeNameIndex with
      | none => pfail (.attributeInfoNameIndexOutOfBounds attributeNameIndex)
      | some (.utf8 bs) =>
          pcut (.attributeInfo bs attributeNameIndex attributeLength)
            (attributeInfoSwitch cp bs attributeNameIndex attributeLength fuel)
      | some cpEntry =>
          pfail (.unexpectedConstantPoolType attributeNameIndex .utf8 cpEntry.tag)

/-- `attribute`: a name index, a four-byte length, then the dispatched
body, under the `Attribute` context. -/
def attributeP (cp : ConstantPool) : Nat → Parser AttributeInfo
  | 0 => fun _ => .error .fuelExhausted
  | fuel + 1 =>
      pcut .attribute (do
        let attributeNameIndex ← cpIndex
        let attributeLen ← beU32
        attributeInfoP cp attributeNameIndex attributeLen fuel)

end

/-- `FieldInfo` as the parser constructs it. -/
structure FieldInfo where
  accessFlags : Nat
  nameIndex : Nat
  descriptorIndex : Nat
  attributes : List AttributeInfo

/-- `MethodInfo` as the parser constructs it. -/
structure MethodInfo where
  accessFlags : Nat
  nameIndex : Nat
  descriptorIndex : Nat
  attributes : List AttributeInfo

/-- `field`: access flags, name and descriptor indices (read as plain
`cp_index` values, with no tag validation), then the field's
attributes. -/
def fieldP (cp : ConstantPool) (fuel : Nat) : Parser FieldInfo :=
  pcut .fieldInfo (do
    let accessFlags ← beU16
    let nameIndex ← cpIndex
    let descriptorIndex ← cpIndex
    let attributesCount ← beU16
    let attributes ← pcut (.fieldAttributes attributesCount)
      (countP (attributeP cp fuel) attributesCount)
    pure ⟨accessFlags, nameIndex, descriptorIndex, attributes⟩)

/-- `method`: access flags, name and descriptor indices (plain
`cp_index` values), then the method's attributes. -/
def methodP (cp : ConstantPool) (fuel : Nat) : Parser MethodInfo :=
  pcut .methodInfo (do
    let accessFlags ← beU16
    let nameIndex ← cpIndex
    let descriptorIndex ← cpIndex
    let attributesCount ← beU16
    let attributes ← pcut (.methodAttributes attributesCount)
      (countP (attributeP cp fuel) attributesCount)
    pure ⟨accessFlags, nameIndex, descriptorIndex, attributes⟩)

/-- `constant_pool_special_count!`: the pool-decoding loop.  The
source iterates `while i < count`, decoding one entry per iteration
(under the `ConstantPoolEntry { index: i }` context); a `Long`/`Double`
entry is pushed together with an `unusable` placeholder and advances
`i` by 2, any other entry advances `i` by 1.  Here `rem` is the number
of slots still to fill (`count - i`), so the loop guard `i < count` is
`rem ≠ 0`, and `i` is carried for the error context. -/
def cpEntriesAux : (rem : Nat) → (i : Nat) → Parser (List CPInfo)
  | 0, _, input => .ok ([], input)
  | rem + 1, i, input =>
      match pcut (.constantPoolEntry i) cpInfo input with
      | .error e => .error e
      | .ok (entry, rest) =>
          if entry.tag = .long ∨ entry.tag = .double then
            match rem with
            | 0 => .ok ([entry, .unusable], rest)
            | rem' + 1 =>
                match cpEntriesAux rem' (i + 2) rest with
                | .error e => .error e
                | .ok (tail, rest2) => .ok (entry :: .unusable :: tail, rest2)
          else
            match cpEntriesAux rem (i + 1) rest with
            | .error e => .error e
            | .ok (tail, rest2) => .ok (entry :: tail, rest2)

/-- The `ClassFile` value the parser constructs (the defining module is
absent; the fields are exactly the ones `class_file_parser` fills
in). -/
structure ClassFile where
  minorVersion : Nat
  majorVersion : Nat
  constantPool : ConstantPool
  accessFlags : Nat
  thisClass : Nat
  superClass : Nat
  interfaces : List Nat
  fields : List FieldInfo
  methods : List MethodInfo
  attributes : List AttributeInfo

/-- `class_file_parser`: the whole class file, under the `ClassFile`
context.  The constant pool is decoded fully (with
`constant_pool_count - 1` slots) before any later structure;
`this_class` must reference a `Class` entry and `super_class` is an
optional `Class` reference; interface entries and field/method
name/descriptor indices are read as plain `cp_index` values.  The fuel
fed to the recursive attribute parsers is `input.length + 1`, ample for
any terminating parse of the input. -/
def classFileParser : Parser ClassFile := fun input0 =>
  let fuel := input0.length + 1
  (pcut .classFile (do
    let _ ← magicP
    let minorVersion ← beU16
    let majorVersion ← beU16
    let constantPoolCount ← beU16
    let entries ← pcut (.constantPool constantPoolCount)
      (cpEntriesAux (constantPoolCount - 1) 0)
    let constantPool := ConstantPool.mk entries
    let accessFlags ← beU16
    let thisClass ← cpIndexTag constantPool .class_
    let superClass ← maybeCpIndexTag constantPool .class_
    let interfacesCount ← beU16
    let interfaces ← pcut (.interfaces interfacesCount)
      (countP cpIndex interfacesCount)
    let fieldsCount ← beU16
    let fields ← pcut (.fields fieldsCount)
      (countP (fieldP constantPool fuel) fieldsCount)
    let methodsCount ← beU16
    let methods ← pcut (.methods methodsCount)
      (countP (methodP constantPool fuel) methodsCount)
    let attributesCount ← beU16
    let attributes ← pcut (.classAttributes attributesCount)
      (countP (attributeP constantPool fuel) attributesCount)
    pure (ClassFile.mk minorVersion majorVersion constantPool accessFlags
      thisClass superClass interfaces fields methods attributes))) input0

/-- `parse_class_file`: the public entry point. -/
def parseClassFile (input : List Nat) : Except PFail (ClassFile × List Nat) :=
  classFileParser input

/-! ## The modified-UTF-8 codec (`vm/constant_pool.rs`,
`ModifiedUtf8String`)

The Rust decoding methods abort with `panic!` on malformed input; each
distinct panic site is modelled as a distinct error value.  The panic
messages carry no data, so neither do the error values. -/

/-- The decoding-failure outcomes of `ModifiedUtf8String::to_string` /
`to_utf16`, one per panic site: "invalid sequence", "invalid surrogate
pair", "invalid continuation byte", "illegal byte", and the final
`String::from_utf8(..).expect("unexpected error decoding modified
UTF-8")`. -/
inductive MUtf8Panic where
  | invalidSequence
  | invalidSurrogatePair
  | invalidContinuationByte
  | illegalByte
  | fromUtf8Failed
  deriving DecidableEq, Repr

mutual
/-- The `while` loop of `ModifiedUtf8String::to_string`, produced UTF-8
bytes accumulated in order.  Each iteration dispatches on the current
byte's range; the multi-byte arms are split into the helper functions
below (one per `match` level of the source), and the arithmetic of the
surrogate-pair branch is transcribed exactly as written in the source,
including its `&` operators and the Rust precedence of `>>` over `&`
and of `+` over `&`. -/
def mUtf8ToStringLoop : List Nat → Except MUtf8Panic (List Nat)
  | [] => .ok []
  | b :: rest =>
      if 0x01 ≤ b ∧ b ≤ 0x7f then
        (mUtf8ToStringLoop rest).map (fun t => b :: t)
      else if 0xc0 ≤ b ∧ b ≤ 0xdf then mUtf8ToStringTwoByte b rest
      else if 0xe0 ≤ b ∧ b ≤ 0xef then mUtf8ToStringThreeByte b rest
      else if 0x80 ≤ b ∧ b ≤ 0xbf then .error .invalidContinuationByte
      else .error .illegalByte

/-- The `0xC0`–`0xDF` arm of the `to_string` loop: fewer than two bytes
remaining is the invalid-sequence panic; `C0 80` pushes the null
character; anything else passes both bytes through. -/
def mUtf8ToStringTwoByte (b : Nat) : List Nat → Except MUtf8Panic (List Nat)
  | [] => .error .invalidSequence
  | b1 :: rest1 =>
      if b = 0xc0 ∧ b1 = 0x80 then
        (mUtf8ToStringLoop rest1).map (fun t => 0x00 :: t)
      else
        (mUtf8ToStringLoop rest1).map (fun t => b :: b1 :: t)

/-- The `0xE0`–`0xEF` arm of the `to_string` loop: fewer than three
bytes remaining is the invalid-sequence panic; a high-surrogate lead
(`ED A0`–`AF`) hands over to the surrogate-pair step; anything else
passes the three bytes through. -/
def mUtf8ToStringThreeByte (b : Nat) : List Nat → Except MUtf8Panic (List Nat)
  | b1 :: b2 :: rest2 =>
      if b = 0xed ∧ (0xa0 ≤ b1 ∧ b1 ≤ 0xaf) then
        mUtf8ToStringSurrogate b1 b2 rest2
      else
        (mUtf8ToStringLoop rest2).map (fun t => b :: b1 :: b2 :: t)
  | _ => .error .invalidSequence

/-- The surrogate-pair step of the `to_string` loop: checks for a
matching low-surrogate sequence and pushes the four bytes computed by
the source's expressions (`&` for `|`, shifts as parsed by Rust
precedence). -/
def mUtf8ToStringSurrogate (b1 b2 : Nat) : List Nat → Except MUtf8Panic (List Nat)
  | b3 :: b4 :: b5 :: rest5 =>
      if b3 ≠ 0xed ∨ b4 < 0xb0 ∨ 0xbf < b4 then .error .invalidSurrogatePair
      else
        let codePoint :=
          ((b1 &&& 0x0f) <<< 16) &&& ((b2 &&& 0x3f) <<< 10) &&&
            ((b4 &&& 0x0f) <<< 6) &&& ((b5 &&& 0x3f) + 0x10000)
        (mUtf8ToStringLoop rest5).map (fun t =>
          (0xf0 &&& ((codePoint &&& (0x001c0000 >>> 18)) % 256)) ::
          (0x80 &&& ((codePoint &&& (0x0003f000 >>> 12)) % 256)) ::
          (0x80 &&& ((codePoint &&& (0x00000fc0 >>> 6)) % 256)) ::
          (0x80 &&& ((codePoint &&& 0x0000003f) % 256)) :: t)
  | _ => .error .invalidSurrogatePair
end

/-- Whether one byte is a UTF-8 continuation byte (`0x80`–`0xBF`). -/
def isUtf8Cont (b : Nat) : Bool := 0x80 ≤ b ∧ b ≤ 0xbf

/-- Standard UTF-8 well-formedness of a byte list: the validation
performed by Rust's `String::from_utf8` on the loop's output (RFC 3629:
no overlong form, no surrogate code point, nothing above U+10FFFF). -/
def utf8Valid : List Nat → Bool
  | [] => true
  | b :: rest =>
      if b ≤ 0x7f then utf8Valid rest
      else if 0xc2 ≤ b ∧ b ≤ 0xdf then
        match rest with
        | b1 :: rest1 => isUtf8Cont b1 && utf8Valid rest1
        | _ => false
      else if b = 0xe0 then
        match rest with
        | b1 :: b2 :: rest2 =>
            (0xa0 ≤ b1 && b1 ≤ 0xbf) && isUtf8Cont b2 && utf8Valid rest2
        | _ => false
      else if (0xe1 ≤ b ∧ b ≤ 0xec) ∨ b = 0xee ∨ b = 0xef then
        match rest with
        | b1 :: b2 :: rest2 => isUtf8Cont b1 && isUtf8Cont b2 && utf8Valid rest2
        | _ => false
      else if b = 0xed then
        match rest with
        | b1 :: b2 :: rest2 =>
            (0x80 ≤ b1 && b1 ≤ 0x9f) && isUtf8Cont b2 && utf8Valid rest2
        | _ => false
      else if b = 0xf0 then
        match rest with
        | b1 :: b2 :: b3 :: rest3 =>
            (0x90 ≤ b1 && b1 ≤ 0xbf) && isUtf8Cont b2 && isUtf8Cont b3 &&
              utf8Valid rest3
        | _ => false
      else if 0xf1 ≤ b ∧ b ≤ 0xf3 then
        match rest with
        | b1 :: b2 :: b3 :: rest3 =>
            isUtf8Cont b1 && isUtf8Cont b2 && isUtf8Cont b3 && utf8Valid rest3
        | _ => false
      else if b = 0xf4 then
        match rest with
        | b1 :: b2 :: b3 :: rest3 =>
            (0x80 ≤ b1 && b1 ≤ 0x8f) && isUtf8Cont b2 && isUtf8Cont b3 &&
              utf8Valid rest3
        | _ => false
      else false

/-- A modified UTF-8 string: the raw bytes from the class file,
unvalidated (`ModifiedUtf8String`). -/
structure ModifiedUtf8String where
  bytes : List Nat
  deriving DecidableEq, Repr

/-- `ModifiedUtf8String::new`. -/
def ModifiedUtf8String.new (bytes : List Nat) : ModifiedUtf8String := ⟨bytes⟩

/-- `ModifiedUtf8String::to_string`: run the decode loop, then the final
`String::from_utf8(..).expect(..)` validation; the result is the byte
list of the produced Rust `String`. -/
def ModifiedUtf8String.toStr (s : ModifiedUtf8String) :
    Except MUtf8Panic (List Nat) := do
  let utf8 ← mUtf8ToStringLoop s.bytes
  if utf8Valid utf8 then pure utf8 else .error .fromUtf8Failed

mutual
/-- The `while` loop of `ModifiedUtf8String::to_utf16`, produced UTF-16
code units accumulated in order; the multi-byte arms are split into the
helper functions below, and the `&` operators of the source's
code-point computations are transcribed exactly. -/
def mUtf8ToUtf16Loop : List Nat → Except MUtf8Panic (List Nat)
  | [] => .ok []
  | b :: rest =>
      if 0x01 ≤ b ∧ b ≤ 0x7f then
        (mUtf8ToUtf16Loop rest).map (fun t => b :: t)
      else if 0xc0 ≤ b ∧ b ≤ 0xdf then mUtf8ToUtf16TwoByte b rest
      else if 0xe0 ≤ b ∧ b ≤ 0xef then mUtf8ToUtf16ThreeByte b rest
      else if 0x80 ≤ b ∧ b ≤ 0xbf then .error .invalidContinuationByte
      else .error .illegalByte

/-- The `0xC0`–`0xDF` arm of the `to_utf16` loop. -/
def mUtf8ToUtf16TwoByte (b : Nat) : List Nat → Except MUtf8Panic (List Nat)
  | [] => .error .invalidSequence
  | b1 :: rest1 =>
      if b = 0xc0 ∧ b1 = 0x80 then
        (mUtf8ToUtf16Loop rest1).map (fun t => 0x0000 :: t)
      else
        let codePoint := ((b &&& 0x1f) <<< 6) &&& (b1 &&& 0x3f)
        (mUtf8ToUtf16Loop rest1).map (fun t => codePoint :: t)

/-- The `0xE0`–`0xEF` arm of the `to_utf16` loop (no surrogate
special-casing: the source's `to_utf16` "does not validate surrogate
pairs"). -/
def mUtf8ToUtf16ThreeByte (b : Nat) : List Nat → Except MUtf8Panic (List Nat)
  | b1 :: b2 :: rest2 =>
      let codePoint :=
        ((b &&& 0x0f) <<< 12) &&& ((b1 &&& 0x3f) <<< 6) &&& (b2 &&& 0x3f)
      (mUtf8ToUtf16Loop rest2).map (fun t => codePoint :: t)
  | _ => .error .invalidSequence
end

/-- `ModifiedUtf8String::to_utf16`. -/
def ModifiedUtf8String.toUtf16 (s : ModifiedUtf8String) :
    Except MUtf8Panic (List Nat) :=
  mUtf8ToUtf16Loop s.bytes

/-! ## The runtime constant pool (`vm/constant_pool.rs`,
`RuntimeConstantPool`) -/

mutual
/-- Modelled from the spec: `sig::Type` of the absent `vm::sig` module —
a field/parameter type decoded from the descriptor grammar (primitive
letter codes, scalar references, array types). -/
inductive SigType where
  | byte | char | double | float | int | long | short | boolean
  | reference (cls : SigClass)

/-- Modelled from the spec: `sig::Class` — a scalar class named by its
binary name (held as the decoded string's bytes) or an array class of a
component type. -/
inductive SigClass where
  | scalar (name : List Nat)
  | array (component : SigType)
end

/-- Modelled from the spec: the descriptor grammar — "primitive letter
codes B/C/D/F/I/J/S/Z, `L<name>;` for scalar references, leading `[` for
array types, recursively".  Parses one type off the front of a
descriptor, returning it and the remaining characters. -/
def sigTypeParse : List Nat → Option (SigType × List Nat)
  | 66 :: r => some (.byte, r)
  | 67 :: r => some (.char, r)
  | 68 :: r => some (.double, r)
  | 70 :: r => some (.float, r)
  | 73 :: r => some (.int, r)
  | 74 :: r => some (.long, r)
  | 83 :: r => some (.short, r)
  | 90 :: r => some (.boolean, r)
  | 76 :: r =>
      match r.dropWhile (· ≠ 59) with
      | 59 :: r2 => some (.reference (.scalar (r.takeWhile (· ≠ 59))), r2)
      | _ => none
  | 91 :: r => (sigTypeParse r).map (fun tr => (.reference (.array tr.1), tr.2))
  | _ => none

/-- Modelled from the spec: `sig::Type::new(descriptor)` — the whole
descriptor must be a single type; a malformed descriptor is a panic,
modelled as `none`. -/
def sigTypeNew (descriptor : List Nat) : Option SigType :=
  (sigTypeParse descriptor).map (fun tr => tr.1)

/-- Modelled from the spec: `sig::Class::new(name)` — a name with a
leading `[` is an array class of the parsed component type, any other
name a scalar class. -/
def sigClassNew (name : List Nat) : Option SigClass :=
  match name with
  | 91 :: r => (sigTypeParse r).map (fun tr => .array tr.1)
  | _ => some (.scalar name)

/-- Modelled from the spec: the parameter-list part of a method
descriptor — types until the closing `)`.  `fuel` bounds the number of
parameters (the caller passes the descriptor length, which is ample
since each type consumes at least one character). -/
def sigParamsParse : Nat → List Nat → Option (List SigType × List Nat)
  | 0, _ => none
  | _, 41 :: r => some ([], r)
  | fuel + 1, cs => do
      let (t, r) ← sigTypeParse cs
      let (ts, r2) ← sigParamsParse fuel r
      pure (t :: ts, r2)

/-- Modelled from the spec: `sig::Method` — a method signature: name,
parameter types, optional return type (`none` for void). -/
structure SigMethod where
  name : List Nat
  params : List SigType
  returnTy : Option SigType

/-- Modelled from the spec: `sig::Method::new(name, descriptor)` —
parses `(<params>)<return>` with `V` as the void return. -/
def sigMethodNew (name descriptor : List Nat) : Option SigMethod :=
  match descriptor with
  | 40 :: r => do
      let (ps, r2) ← sigParamsParse (r.length + 1) r
      match r2 with
      | [86] => some ⟨name, ps, none⟩
      | _ => do
          let t ← sigTypeNew r2
          pure ⟨name, ps, some t⟩
  | _ => none

/-- Modelled from the spec: `sig::Field` — a field signature. -/
structure SigField where
  name : List Nat
  ty : SigType

/-- Modelled from the spec: `symref::Class` of the absent symbolic
reference module. -/
structure SymrefClass where
  sig : SigClass

/-- Modelled from the spec: `symref::Field`. -/
structure SymrefField where
  cls : SymrefClass
  sig : SigField

/-- Modelled from the spec: `symref::Method`. -/
structure SymrefMethod where
  cls : SymrefClass
  sig : SigMethod

/-- A JVM value (`vm::value::Value`; the defining module is absent).
`int`/`long` carry the two's-complement bit pattern of the wrapped
machine integer; `floatOfU32`/`doubleOfU64` carry the unsigned integer
the source casts with `as f32` / `as f64`, keeping the conversion
symbolic (no claim inspects a floating-point value). -/
inductive VmValue where
  | int (bits : Nat)
  | floatOfU32 (n : Nat)
  | long (bits : Nat)
  | doubleOfU64 (n : Nat)
  | scalarReference (id : Nat)
  | arrayReference (id : Nat)

/-- The panic sites of `RuntimeConstantPool::new` and its `force_*`
helpers, as error values. -/
inductive RTPanic where
  /-- `panic!("expected ConstantPoolInfo::Class")` -/
  | expectedClass
  /-- `panic!("expected ConstantPoolInfo::NameAndType")` -/
  | expectedNameAndType
  /-- `panic!("expected ConstantPoolInfo::Utf8")` -/
  | expectedUtf8
  /-- an out-of-bounds `constant_pool[i]` indexing panic -/
  | indexOutOfBounds
  /-- a panic inside modified-UTF-8 decoding -/
  | mutf8 (p : MUtf8Panic)
  /-- a malformed name/descriptor (panic inside the `sig` parsers) -/
  | badSignature
  deriving DecidableEq, Repr

/-- `constant_pool[i]`: one-based indexing that panics out of bounds. -/
def poolIdx (cp : ConstantPool) (i : Nat) : Except RTPanic CPInfo :=
  match cp.get i with
  | some e => .ok e
  | none => .error .indexOutOfBounds

/-- `RuntimeConstantPool::force_string`. -/
def forceString (info : CPInfo) : Except RTPanic ModifiedUtf8String :=
  match info with
  | .utf8 bytes => .ok (ModifiedUtf8String.new bytes)
  | _ => .error .expectedUtf8

/-- Lift a modified-UTF-8 decode panic into an `RTPanic`. -/
def liftMUtf8 {α : Type} : Except MUtf8Panic α → Except RTPanic α
  | .ok a => .ok a
  | .error p => .error (.mutf8 p)

/-- Lift a `sig`-parser panic (`none`) into an `RTPanic`. -/
def liftSig {α : Type} : Option α → Except RTPanic α
  | some a => .ok a
  | none => .error .badSignature

/-- `RuntimeConstantPool::force_class_ref`: builds a `symref::Class`
from a `ConstantPoolInfo::Class`, panicking on any other variant. -/
def forceClassRef (cp : ConstantPool) (info : CPInfo) :
    Except RTPanic SymrefClass :=
  match info with
  | .class_ nameIndex => do
      let entry ← poolIdx cp nameIndex
      let s ← forceString entry
      let name ← liftMUtf8 s.toStr
      let sig ← liftSig (sigClassNew name)
      pure ⟨sig⟩
  | _ => .error .expectedClass

/-- `RuntimeConstantPool::force_name_and_type`: the decoded name and
descriptor strings of a `ConstantPoolInfo::NameAndType`. -/
def forceNameAndType (cp : ConstantPool) (info : CPInfo) :
    Except RTPanic (List Nat × List Nat) :=
  match info with
  | .nameAndType nameIndex descriptorIndex => do
      let nameInfo ← poolIdx cp nameIndex
      let descriptorInfo ← poolIdx cp descriptorIndex
      let nameS ← forceString nameInfo
      let descriptorS ← forceString descriptorInfo
      let name ← liftMUtf8 nameS.toStr
      let descriptor ← liftMUtf8 descriptorS.toStr
      pure (name, descriptor)
  | _ => .error .expectedNameAndType

/-- A runtime constant-pool entry (`RuntimeConstantPoolEntry`). -/
inductive RTCPEntry where
  | classRef (r : SymrefClass)
  | methodRef (r : SymrefMethod)
  | fieldRef (r : SymrefField)
  | resolvedLiteral (v : VmValue)
  | unresolvedString (index : Nat)
  | stringValue (s : ModifiedUtf8String)

/-- The per-entry body of the `for info in constant_pool` loop of
`RuntimeConstantPool::new`.  The `Long` and `Double` arms transcribe the
source's bit manipulation exactly: `((high_bytes as i64) << 32) &
(low_bytes as i64)` (and the `u64` analogue), written on the bit
patterns as `(high <<< 32) &&& low`. -/
def rtEntry (cp : ConstantPool) (info : CPInfo) :
    Except RTPanic (Option RTCPEntry) :=
  match info with
  | .class_ ni => do
      let classSymref ← forceClassRef cp (.class_ ni)
      pure (some (.classRef classSymref))
  | .fieldRef classIndex nameAndTypeIndex => do
      let classEntry ← poolIdx cp classIndex
      let classSymref ← forceClassRef cp classEntry
      let ntEntry ← poolIdx cp nameAndTypeIndex
      let nd ← forceNameAndType cp ntEntry
      let ty ← liftSig (sigTypeNew nd.2)
      pure (some (.fieldRef ⟨classSymref, ⟨nd.1, ty⟩⟩))
  | .methodRef classIndex nameAndTypeIndex => do
      let classEntry ← poolIdx cp classIndex
      let classSymref ← forceClassRef cp classEntry
      let ntEntry ← poolIdx cp nameAndTypeIndex
      let nd ← forceNameAndType cp ntEntry
      let sig ← liftSig (sigMethodNew nd.1 nd.2)
      pure (some (.methodRef ⟨classSymref, sig⟩))
  | .string stringIndex => pure (some (.unresolvedString stringIndex))
  | .integer bytes => pure (some (.resolvedLiteral (.int bytes)))
  | .float bytes => pure (some (.resolvedLiteral (.floatOfU32 bytes)))
  | .long highBytes lowBytes =>
      pure (some (.resolvedLiteral (.long (Nat.land (highBytes <<< 32) lowBytes))))
  | .double highBytes lowBytes =>
      pure (some (.resolvedLiteral (.doubleOfU64 (Nat.land (highBytes <<< 32) lowBytes))))
  | .nameAndType _ _ => pure none
  | .utf8 bytes => pure (some (.stringValue (ModifiedUtf8String.new bytes)))
  | .unusable => pure none
  | .interfaceMethodRef _ _ => pure none
  | .methodHandle _ => pure none
  | .methodType _ => pure none
  | .invokeDynamic _ _ => pure none

/-- A runtime constant pool: one slot per source-pool slot, one-based
(`RuntimeConstantPool`, backed by a `OneIndexedVec`). -/
structure RuntimeConstantPool where
  entries : List (Option RTCPEntry)

/-- `RuntimeConstantPool::new`: convert every slot of the parsed pool in
order. -/
def RuntimeConstantPool.new (cp : ConstantPool) :
    Except RTPanic RuntimeConstantPool := do
  let entries ← cp.entries.mapM (rtEntry cp)
  pure ⟨entries⟩

/-- One-based lookup in a runtime constant pool. -/
def RuntimeConstantPool.get (rp : RuntimeConstantPool) (i : Nat) :
    Option (Option RTCPEntry) :=
  if i = 0 then none else rp.entries[i - 1]?

/-! ## The class-resolution engine (`vm/class_loader.rs`,
`ClassLoader::load_class` / `load_class_impl`)

The source file contains the pending-set/cache skeleton and the
array-class arm of `load_class_impl`; the scalar-class arm (and the
`vm::handle` module) are absent and are modelled from the spec.  The
`Rc<vm::Class>` sharing is modelled by an explicit store of `LClass`
values indexed by a numeric class id: two results are "the identical
cached instance" exactly when they are the same id.  The byte-source
collaborator is a function from scalar names to outcomes, and every
consultation is logged in the state. -/

/-- Modelled from the spec: the primitive element types of
`handle::Type` (the `vm::handle` module is absent). -/
inductive PrimType where
  | byte | char | double | float | int | long | short | boolean
  deriving DecidableEq, Repr

/-- Modelled from the spec: a class handle — "a class handle (scalar
binary name, or array wrapping a component-type handle)".  The source
represents a scalar name as a vector of name segments.  `handle::Type`
and `handle::Class` are flattened into one type: an array handle is
either an array of a primitive type or an array of a reference type
given by its component class handle. -/
inductive Handle where
  | scalar (name : List String)
  | arrayPrim (p : PrimType)
  | arrayRef (component : Handle)
  deriving DecidableEq, Repr

/-- The name segments of the universal root class
(`vec!["java", "lang", "Object"]` in the array arm). -/
def objectName : List String := ["java", "lang", "Object"]

/-- Modelled from the spec: the part of a parsed class file the
resolution engine consumes — the declared name, the optional superclass
name, and the declared superinterface names. -/
structure CDesc where
  name : List String
  superName : Option (List String)
  interfaces : List (List String)
  deriving DecidableEq, Repr

/-- Modelled from the spec: what the byte-source collaborator plus the
parse step yield for a scalar name — no representation, a representation
that fails to parse, or a parsed class description.  (The spec's
unsupported-version check is not modelled: the spec does not fix the
supported version set, and no claim depends on it.) -/
inductive LoadOutcome where
  | notFound
  | malformed
  | file (f : CDesc)
  deriving DecidableEq, Repr

/-- The resolution-layer error kinds (`class_loader::Error`);
`ClassFormat`'s wrapped parse error and `UnsupportedVersion`'s /
`IncompatibleClassChange`'s payloads are not inspected by any claim and
are dropped. -/
inductive LError where
  | classNotFound
  | classFormat
  | unsupportedVersion
  | noClassDefFound
  | incompatibleClassChange
  | classCircularity
  deriving DecidableEq, Repr

/-- A resolved runtime class, as far as the resolution engine shapes it:
its own handle, the class id of its resolved superclass (shared
ownership = shared id), and its instance-field names (the array arm
installs the fixed `length` field). -/
structure LClass where
  symref : Handle
  superclass : Option Nat
  instanceFields : List String
  deriving DecidableEq, Repr

/-- The engine's persistent state: the cache mapping handles to class
ids (`ClassLoader.classes`), the store of constructed classes (the
`Rc` heap, ids are positions), and the log of byte-source
consultations (most recent first). -/
structure LState where
  classes : List (Handle × Nat)
  store : List LClass
  consults : List (List String)
  deriving DecidableEq, Repr

/-- The empty engine state. -/
def LState.empty : LState := ⟨[], [], []⟩

/-- The result triple of one `load_class_impl` step: the outcome
(`none` when the fuel standing in for the Rust call stack runs out),
the pending set, and the state. -/
abbrev LResult : Type := Option (Except LError Nat) × List Handle × LState

/-- The four call shapes of the resolution recursion, bundled into one
type so that the whole engine is a single structurally recursive
function on its fuel: a `load_class_impl` call, the tail of the array
arm (after the component, from resolving the root class onward), the
scalar arm's body, and the sequential resolution of a handle list (the
superinterface recursion). -/
inductive LCall where
  | impl (h : Handle) (p : List Handle) (s : LState)
  | arrayFinish (h : Handle) (p : List Handle) (s : LState)
  | scalarBody (h : Handle) (name : List String) (p : List Handle) (s : LState)
  | seq (hs : List Handle) (p : List Handle) (s : LState)
  deriving DecidableEq, Repr

/-- The pending set carried by a call. -/
def LCall.pending : LCall → List Handle
  | .impl _ p _ => p
  | .arrayFinish _ p _ => p
  | .scalarBody _ _ p _ => p
  | .seq _ p _ => p

/-- The engine state carried by a call. -/
def LCall.state : LCall → LState
  | .impl _ _ s => s
  | .arrayFinish _ _ s => s
  | .scalarBody _ _ _ s => s
  | .seq _ _ s => s

/-- Sequencing of engine results (the `match`-on-result pattern the
source's `and_then`/`map` chains desugar to): thread fuel exhaustion and
errors through unchanged, continue on success. -/
def lbind {a b : Type} (r : Option (Except LError a) × List Handle × LState)
    (k : a → List Handle → LState → Option (Except LError b) × List Handle × LState) :
    Option (Except LError b) × List Handle × LState :=
  match r with
  | (none, pp, ss) => (none, pp, ss)
  | (some (.error e), pp, ss) => (some (.error e), pp, ss)
  | (some (.ok v), pp, ss) => k v pp ss

/-- One step of the resolution engine, with `rec` as the recursive
continuation (the driver `loadRun` below ties the knot through a fuel
bound standing in for the Rust call stack).

`.impl h p s` is `ClassLoader::load_class_impl`: if the handle is in the
pending set, fail at once with the circularity error; if cached, return
the cached id; otherwise mark the handle pending, dispatch on its kind,
and unmark pending on the way out — every exit path of the dispatch
passes through the final `erase`.

`.arrayFinish` is the array arm's tail: resolve the root class, then
construct the array class (superclass = the root class, a single
`length` instance field), insert it into the cache and return it.

`.scalarBody` is modelled from the spec (the scalar arm is absent from
the source): consult the byte-source collaborator (logged) and parse;
verify the declared name matches the requested handle (mismatch is the
format-mismatch error); recursively resolve the superclass, then the
superinterfaces; then construct the class, insert it into the cache,
and return it.  (The runtime-constant-pool construction does not affect
the engine state and is not re-modelled here.)

`.seq` resolves a list of handles in order, stopping at the first
failure; its success value is the dummy id 0, which no caller reads. -/
def loadStep (bs : List String → LoadOutcome) (rec : LCall → LResult) :
    LCall → LResult
  | .impl h p s =>
      if h ∈ p then (some (.error .classCircularity), p, s)
      else
        match List.lookup h s.classes with
        | some cid => (some (.ok cid), p, s)
        | none =>
            let step : LResult :=
              match h with
              | .arrayPrim _ => rec (.arrayFinish h (h :: p) s)
              | .arrayRef componentHandle =>
                  lbind (rec (.impl componentHandle (h :: p) s))
                    (fun _ p' s' => rec (.arrayFinish h p' s'))
              | .scalar name => rec (.scalarBody h name (h :: p) s)
            (step.1, step.2.1.erase h, step.2.2)
  | .arrayFinish h p s =>
      lbind (rec (.impl (.scalar objectName) p s)) (fun objectCid p' s' =>
        let cid := s'.store.length
        let cls : LClass := ⟨h, some objectCid, ["length"]⟩
        (some (.ok cid), p',
          { s' with store := s'.store ++ [cls],
                    classes := (h, cid) :: s'.classes }))
  | .scalarBody h name p s =>
      let s0 : LState := { s with consults := name :: s.consults }
      match bs name with
      | .notFound => (some (.error .classNotFound), p, s0)
      | .malformed => (some (.error .classFormat), p, s0)
      | .file f =>
          if f.name ≠ name then (some (.error .noClassDefFound), p, s0)
          else
            let superStep : Option (Except LError (Option Nat)) × List Handle × LState :=
              match f.superName with
              | none => (some (.ok none), p, s0)
              | some sn =>
                  lbind (rec (.impl (.scalar sn) p s0))
                    (fun cid p' s' => (some (.ok (some cid)), p', s'))
            lbind superStep (fun superCid p' s' =>
              lbind (rec (.seq (f.interfaces.map .scalar) p' s')) (fun _ p2 s2 =>
                let cid := s2.store.length
                let cls : LClass := ⟨h, superCid, []⟩
                (some (.ok cid), p2,
                  { s2 with store := s2.store ++ [cls],
                            classes := (h, cid) :: s2.classes })))
  | .seq [] p s => (some (.ok 0), p, s)
  | .seq (h :: t) p s =>
      lbind (rec (.impl h p s)) (fun _ p' s' => rec (.seq t p' s'))

/-- The resolution engine's recursion driver: `fuel` stands in for the
Rust call stack; at each level one `loadStep` runs with the
next-shallower driver as its recursive continuation.  It exhausts only
on runs deeper than the supplied bound, and the theorems below quantify
over every sufficient fuel. -/
def loadRun (bs : List String → LoadOutcome) : Nat → LCall → LResult
  | 0, c => (none, c.pending, c.state)
  | fuel + 1, c => loadStep bs (loadRun bs fuel) c

/-- `ClassLoader::load_class_impl` as a named entry point. -/
def loadClassImpl (bs : List String → LoadOutcome) (fuel : Nat) (h : Handle)
    (p : List Handle) (s : LState) : LResult :=
  loadRun bs fuel (.impl h p s)

/-- `ClassLoader::load_class`: run the implementation with a fresh,
empty pending set. -/
def loadClass (bs : List String → LoadOutcome) (fuel : Nat) (h : Handle)
    (s : LState) : LResult :=
  loadClassImpl bs fuel h [] s

/-! ## Resolved classes and methods (`vm/mod.rs`, `Class::new` /
`Method::new`)

`Method::new` and `Class::new` panic (they do not return errors) when a
structural expectation fails; both are therefore embedded as
`Option`-valued functions with `none` for the panic. -/

/-- A value of the interpreter layer (`vm::mod::Value`).  `float` and
`double` carry their representation symbolically (only the zero default
is ever constructed here). -/
inductive MValue where
  | int (bits : Nat)
  | float (rep : Nat)
  | long (bits : Nat)
  | double (rep : Nat)
  | reference (id : Nat)
  | nullReference

/-- Modelled from the spec: `handle::Type::default_value()` of the
absent `vm::handle` module — the default-initialized value of a static
field of each type (integral types zero, floating types zero, references
null). -/
def SigType.defaultValue : SigType → MValue
  | .byte => .int 0
  | .char => .int 0
  | .short => .int 0
  | .boolean => .int 0
  | .int => .int 0
  | .float => .float 0
  | .long => .long 0
  | .double => .double 0
  | .reference _ => .nullReference

/-- Modelled from the spec: `handle::Field` — a field handle: its
unqualified name and its type. -/
structure FieldHandle where
  name : List Nat
  ty : SigType

/-- Modelled from the spec: `handle::Method` — the loader-independent
method key built by `handle::Method::new(&name, &descriptor)`; the name
and raw descriptor identify the method. -/
structure MethodHandleKey where
  name : List Nat
  descriptor : List Nat
  deriving DecidableEq, Repr

/-- Modelled from the spec: `symref::Method` as `Class::new` builds it —
the defining class's symbolic reference paired with the method
handle. -/
structure MethodSymref where
  cls : Handle
  handle : MethodHandleKey

/-- `ACC_STATIC` (`model::class_file::access_flags`, absent): bit
`0x0008` of the field access flags. -/
def accStatic : Nat := 0x0008

/-- A resolved method (`vm::Method`): its symbolic reference, bytecode,
and exception table. -/
structure VMethod where
  symref : MethodSymref
  code : List Nat
  exceptionTable : List ExceptionTableEntry

/-- The scan of `Method::new`'s `for` loop: the first `Code` attribute's
payload, if any. -/
def findCodeAttribute : List AttributeInfo → Option (List Nat × List ExceptionTableEntry)
  | [] => none
  | .code _ _ code exceptionTable _ :: _ => some (code, exceptionTable)
  | _ :: rest => findCodeAttribute rest

/-- `Method::new`: scan the method's attributes for a `Code` attribute
and build the method from the first one; reaching the end of the
attribute list is the `panic!("no Code attribute in MethodInfo")`,
modelled as `none`. -/
def VMethod.new (symref : MethodSymref) (methodInfo : MethodInfo) : Option VMethod :=
  match findCodeAttribute methodInfo.attributes with
  | some (code, exceptionTable) => some ⟨symref, code, exceptionTable⟩
  | none => none

/-- `RuntimeConstantPool::lookup_raw_string`: the decoded string at a
slot that must hold a `StringValue`; any other slot — or a decoding
panic — is a panic, modelled as `none`. -/
def RuntimeConstantPool.lookupRawString (rp : RuntimeConstantPool) (i : Nat) :
    Option (List Nat) :=
  match rp.get i with
  | some (some (.stringValue m)) => m.toStr.toOption
  | _ => none

/-- A resolved class (`vm::Class`): symbolic self-reference, optional
superclass (by class id, modelling the shared `Rc`), runtime constant
pool, static-field map, instance-field set, and method map. -/
structure VClass where
  symref : Handle
  superclass : Option Nat
  constantPool : RuntimeConstantPool
  classFields : List (FieldHandle × MValue)
  instanceFields : List FieldHandle
  methods : List (MethodHandleKey × VMethod)

/-- The field loop of `Class::new`: split the class file's fields into
static fields (mapped to their default values) and instance fields,
looking names and descriptors up in the runtime constant pool. -/
def classFieldsBuild (rp : RuntimeConstantPool) :
    List FieldInfo → Option (List (FieldHandle × MValue) × List FieldHandle)
  | [] => some ([], [])
  | fi :: rest => do
      let name ← rp.lookupRawString fi.nameIndex
      let descriptor ← rp.lookupRawString fi.descriptorIndex
      let ty ← liftSig (sigTypeNew descriptor) |>.toOption
      let handle := FieldHandle.mk name ty
      let tail ← classFieldsBuild rp rest
      if fi.accessFlags &&& accStatic ≠ 0 then
        some ((handle, ty.defaultValue) :: tail.1, tail.2)
      else
        some (tail.1, handle :: tail.2)

/-- The method loop of `Class::new`: build the method map, constructing
each method with `Method::new`. -/
def classMethodsBuild (symref : Handle) (rp : RuntimeConstantPool) :
    List MethodInfo → Option (List (MethodHandleKey × VMethod))
  | [] => some []
  | mi :: rest => do
      let name ← rp.lookupRawString mi.nameIndex
      let descriptor ← rp.lookupRawString mi.descriptorIndex
      let handle := MethodHandleKey.mk name descriptor
      let methodSymref := MethodSymref.mk symref handle
      let m ← VMethod.new methodSymref mi
      let tail ← classMethodsBuild symref rp rest
      some ((handle, m) :: tail)

/-- `Class::new`: build the field maps and the method map from the
parsed class file; any panic on the way (a missing `Code` attribute, a
non-string name slot, a malformed descriptor) is `none`. -/
def VClass.new (symref : Handle) (superclass : Option Nat)
    (constantPool : RuntimeConstantPool) (classFile : ClassFile) :
    Option VClass := do
  let fieldMaps ← classFieldsBuild constantPool classFile.fields
  let methods ← classMethodsBuild symref constantPool classFile.methods
  some ⟨symref, superclass, constantPool, fieldMaps.1, fieldMaps.2, methods⟩

/-- The handle a call inserts into the cache when (and only when) it
returns success: the two construction tails insert the class under
construction; a plain `load_class_impl` call and the superinterface
sequence insert nothing themselves. -/
def LCall.inserter : LCall → Option Handle
  | .arrayFinish h _ _ => some h
  | .scalarBody h _ _ _ => some h
  | _ => none

/-- The handle whose cache entry a call guarantees on success: every
call shape except the superinterface sequence resolves one handle. -/
def LCall.target : LCall → Option Handle
  | .impl h _ _ => some h
  | .arrayFinish h _ _ => some h
  | .scalarBody h _ _ _ => some h
  | .seq _ _ _ => none

/-- A byte source holding exactly one class: the root class
`java/lang/Object`, with no superclass and no superinterfaces. -/
def bsObj : List String → LoadOutcome := fun n =>
  if n = objectName then .file ⟨objectName, none, []⟩ else .notFound

/-- A byte source with two classes `A` and `B`, each declaring the
other as its superclass: the mutual-circularity scenario. -/
def bsAB : List String → LoadOutcome := fun n =>
  if n = ["A"] then .file ⟨["A"], some ["B"], []⟩
  else if n = ["B"] then .file ⟨["B"], some ["A"], []⟩
  else .notFound

/-- A byte source holding a class `C` and nothing else (in particular
no root class), so that loading the array class `C[]` resolves and
caches `C` and then fails on the root class. -/
def bsC : List String → LoadOutcome := fun n =>
  if n = ["C"] then .file ⟨["C"], none, []⟩ else .notFound

/-! ## Concrete inputs used by the theorems -/

/-- A complete class-file byte stream whose constant pool is
`[1] Utf8 "A"`, `[2] MethodRef { class_index: 1, name_and_type_index: 1 }`,
`[3] Class { name_index: 1 }`; `this_class` = 3, `super_class` = 0, and
no interfaces, fields, methods or attributes.  Slot 2's `class_index`
points at the `Utf8` entry at slot 1: the wrong tag. -/
def c1Input : List Nat :=
  [0xCA, 0xFE, 0xBA, 0xBE,
   0x00, 0x00,
   0x00, 0x34,
   0x00, 0x04,
   0x01, 0x00, 0x01, 0x41,
   0x0A, 0x00, 0x01, 0x00, 0x01,
   0x07, 0x00, 0x01,
   0x00, 0x21,
   0x00, 0x03,
   0x00, 0x00,
   0x00, 0x00,
   0x00, 0x00,
   0x00, 0x00,
   0x00, 0x00]

/-- A complete class-file byte stream whose constant pool is
`[1] Long 0 1` (slot 2 becomes the unusable placeholder),
`[3] Class { name_index: 1 }`; `this_class` = 3, and one field whose
`name_index` and `descriptor_index` are 2 — the placeholder slot. -/
def c5Input : List Nat :=
  [0xCA, 0xFE, 0xBA, 0xBE,
   0x00, 0x00,
   0x00, 0x34,
   0x00, 0x04,
   0x05, 0x00, 0x00, 0x00, 0x00, 0x00, 0x00, 0x00, 0x01,
   0x07, 0x00, 0x01,
   0x00, 0x21,
   0x00, 0x03,
   0x00, 0x00,
   0x00, 0x00,
   0x00, 0x01,
   0x00, 0x00, 0x00, 0x02, 0x00, 0x02, 0x00, 0x00,
   0x00, 0x00,
   0x00, 0x00]

/-- As `c5Input`, but with no fields and `this_class` = 2 — the
placeholder slot of the `Long` entry at slot 1. -/
def c5ThisClassInput : List Nat :=
  [0xCA, 0xFE, 0xBA, 0xBE,
   0x00, 0x00,
   0x00, 0x34,
   0x00, 0x04,
   0x05, 0x00, 0x00, 0x00, 0x00, 0x00, 0x00, 0x00, 0x01,
   0x07, 0x00, 0x01,
   0x00, 0x21,
   0x00, 0x02,
   0x00, 0x00,
   0x00, 0x00,
   0x00, 0x00,
   0x00, 0x00,
   0x00, 0x00]

/-- The 6-byte modified-UTF-8 surrogate-pair encoding of U+10000. -/
def surrogatePairU10000 : List Nat := [0xED, 0xA0, 0x80, 0xED, 0xB0, 0x80]

/-! ## Theorems -/

/-- Evaluation of a parser bind whose first step succeeds. -/
theorem parser_bind_ok {α β : Type} {p : Parser α} {f : α → Parser β}
    {input : List Nat} {a : α} {rest : List Nat}
    (h : p input = .ok (a, rest)) : (p >>= f) input = f a rest := by
  show (match p input with
        | .ok (x, r) => f x r
        | .error e => .error e) = f a rest
  rw [h]

/-- Evaluation of a parser bind whose first step fails. -/
theorem parser_bind_err {α β : Type} {p : Parser α} {f : α → Parser β}
    {input : List Nat} {e : PFail}
    (h : p input = .error e) : (p >>= f) input = .error e := by
  show (match p input with
        | .ok (x, r) => f x r
        | .error e' => .error e') = .error e
  rw [h]

/-- Evaluation of an `Except` bind on a success. -/
theorem except_bind_ok {ε α β : Type} (a : α) (f : α → Except ε β) :
    ((Except.ok a : Except ε α) >>= f) = f a := rfl

/-- Evaluation of an `Except` bind on an error. -/
theorem except_bind_error {ε α β : Type} (e : ε) (f : α → Except ε β) :
    ((Except.error e : Except ε α) >>= f) = .error e := rfl

/-- `p_cut!` passes successes through unchanged. -/
theorem pcut_ok {α : Type} {e : PError} {p : Parser α} {input : List Nat}
    {r : α × List Nat} (h : p input = .ok r) : pcut e p input = .ok r := by
  unfold pcut
  rw [h]

/-- `p_cut!` pushes its context onto the stack of an unrecoverable
failure. -/
theorem pcut_fail {α : Type} {e : PError} {p : Parser α} {input : List Nat}
    {es : List PError} (h : p input = .error (.fail es)) :
    pcut e p input = .error (.fail (e :: es)) := by
  unfold pcut
  rw [h]

/-- Membership in the parser's illegal-byte list is exactly `b = 0` or
`0xF0 ≤ b ≤ 0xFF`. -/
theorem illegal_byte_iff (b : Nat) :
    b ∈ illegalMUtf8Bytes ↔ b = 0 ∨ (0xf0 ≤ b ∧ b ≤ 0xff) := by
  simp only [illegalMUtf8Bytes, List.mem_cons, List.not_mem_nil, or_false]
  omega

/-- A standalone illegal byte at the head of the remaining input makes
the `to_string` decode loop abort with the illegal-byte panic. -/
theorem mUtf8ToStringLoop_illegal_head (b : Nat) (post : List Nat)
    (hb : b ∈ illegalMUtf8Bytes) :
    mUtf8ToStringLoop (b :: post) = .error .illegalByte := by
  have hb' := (illegal_byte_iff b).mp hb
  rw [mUtf8ToStringLoop.eq_2, if_neg (by omega), if_neg (by omega),
      if_neg (by omega), if_neg (by omega)]

/-- A standalone illegal byte at the head of the remaining input makes
the `to_utf16` decode loop abort with the illegal-byte panic. -/
theorem mUtf8ToUtf16Loop_illegal_head (b : Nat) (post : List Nat)
    (hb : b ∈ illegalMUtf8Bytes) :
    mUtf8ToUtf16Loop (b :: post) = .error .illegalByte := by
  have hb' := (illegal_byte_iff b).mp hb
  rw [mUtf8ToUtf16Loop.eq_2, if_neg (by omega), if_neg (by omega),
      if_neg (by omega), if_neg (by omega)]

/-- If a prefix decodes cleanly (so the appended byte sits at a
character boundary — it is standalone), an illegal byte appended after
it makes the `to_string` loop abort with the illegal-byte panic, for
any trailing bytes.  The induction is on a bound `n` on the prefix
length. -/
theorem mUtf8ToStringLoop_append_illegal (b : Nat) (post : List Nat)
    (hb : b ∈ illegalMUtf8Bytes) :
    ∀ (n : Nat) (pre : List Nat), pre.length ≤ n →
      ∀ out, mUtf8ToStringLoop pre = .ok out →
        mUtf8ToStringLoop (pre ++ b :: post) = .error .illegalByte := by
  intro n
  induction n with
  | zero =>
      intro pre hlen out h
      have hp : pre = [] := List.eq_nil_of_length_eq_zero (Nat.le_zero.mp hlen)
      subst hp
      exact mUtf8ToStringLoop_illegal_head b post hb
  | succ n ih =>
      intro pre hlen out h
      cases pre with
      | nil => exact mUtf8ToStringLoop_illegal_head b post hb
      | cons b0 rest =>
        have hlen' : rest.length ≤ n := by
          simp only [List.length_cons] at hlen
          omega
        rw [mUtf8ToStringLoop.eq_2] at h
        rw [List.cons_append, mUtf8ToStringLoop.eq_2]
        by_cases h1 : 1 ≤ b0 ∧ b0 ≤ 127
        · rw [if_pos h1] at h ⊢
          cases hr : mUtf8ToStringLoop rest with
          | error e => rw [hr] at h; exact Except.noConfusion h
          | ok out' => rw [ih rest hlen' out' hr]; rfl
        · rw [if_neg h1] at h ⊢
          by_cases h2 : 192 ≤ b0 ∧ b0 ≤ 223
          · rw [if_pos h2] at h ⊢
            cases rest with
            | nil =>
                rw [mUtf8ToStringTwoByte.eq_1] at h
                exact Except.noConfusion h
            | cons b1 rest1 =>
                have hlen1 : rest1.length ≤ n := by
                  simp only [List.length_cons] at hlen
                  omega
                rw [mUtf8ToStringTwoByte.eq_2] at h
                rw [List.cons_append, mUtf8ToStringTwoByte.eq_2]
                by_cases hn : b0 = 192 ∧ b1 = 128
                · rw [if_pos hn] at h ⊢
                  cases hr : mUtf8ToStringLoop rest1 with
                  | error e => rw [hr] at h; exact Except.noConfusion h
                  | ok out' => rw [ih rest1 hlen1 out' hr]; rfl
                · rw [if_neg hn] at h ⊢
                  cases hr : mUtf8ToStringLoop rest1 with
                  | error e => rw [hr] at h; exact Except.noConfusion h
                  | ok out' => rw [ih rest1 hlen1 out' hr]; rfl
          · rw [if_neg h2] at h ⊢
            by_cases h3 : 224 ≤ b0 ∧ b0 ≤ 239
            · rw [if_pos h3] at h ⊢
              cases rest with
              | nil =>
                  rw [mUtf8ToStringThreeByte.eq_2 _ _ (by intro _ _ _ hh; cases hh)] at h
                  exact Except.noConfusion h
              | cons b1 rest1 =>
                cases rest1 with
                | nil =>
                    rw [mUtf8ToStringThreeByte.eq_2 _ _
                      (by intro _ _ _ hh; cases hh)] at h
                    exact Except.noConfusion h
                | cons b2 rest2 =>
                  have hlen2 : rest2.length ≤ n := by
                    simp only [List.length_cons] at hlen
                    omega
                  rw [mUtf8ToStringThreeByte.eq_1] at h
                  rw [List.cons_append, List.cons_append,
                      mUtf8ToStringThreeByte.eq_1]
                  by_cases hs : b0 = 237 ∧ 160 ≤ b1 ∧ b1 ≤ 175
                  · rw [if_pos hs] at h ⊢
                    cases rest2 with
                    | nil =>
                        rw [mUtf8ToStringSurrogate.eq_2 _ _ _
                          (by intro _ _ _ _ hh; cases hh)] at h
                        exact Except.noConfusion h
                    | cons b3 rest3 =>
                      cases rest3 with
                      | nil =>
                          rw [mUtf8ToStringSurrogate.eq_2 _ _ _
                            (by intro _ _ _ _ hh; cases hh)] at h
                          exact Except.noConfusion h
                      | cons b4 rest4 =>
                        cases rest4 with
                        | nil =>
                            rw [mUtf8ToStringSurrogate.eq_2 _ _ _
                              (by intro _ _ _ _ hh; cases hh)] at h
                            exact Except.noConfusion h
                        | cons b5 rest5 =>
                          have hlen5 : rest5.length ≤ n := by
                            simp only [List.length_cons] at hlen
                            omega
                          rw [mUtf8ToStringSurrogate.eq_1] at h
                          rw [List.cons_append, List.cons_append,
                              List.cons_append, mUtf8ToStringSurrogate.eq_1]
                          by_cases hbad : b3 ≠ 237 ∨ b4 < 176 ∨ 191 < b4
                          · rw [if_pos hbad] at h
                            exact Except.noConfusion h
                          · rw [if_neg hbad] at h ⊢
                            cases hr : mUtf8ToStringLoop rest5 with
                            | error e =>
                                simp only [hr] at h
                                exact Except.noConfusion h
                            | ok out' =>
                                simp only [ih rest5 hlen5 out' hr]
                                rfl
                  · rw [if_neg hs] at h ⊢
                    cases hr : mUtf8ToStringLoop rest2 with
                    | error e => rw [hr] at h; exact Except.noConfusion h
                    | ok out' => rw [ih rest2 hlen2 out' hr]; rfl
            · rw [if_neg h3] at h ⊢
              by_cases h4 : 128 ≤ b0 ∧ b0 ≤ 191
              · rw [if_pos h4] at h
                exact Except.noConfusion h
              · rw [if_neg h4] at h
                exact Except.noConfusion h

/-- The `to_utf16` analogue of `mUtf8ToStringLoop_append_illegal`. -/
theorem mUtf8ToUtf16Loop_append_illegal (b : Nat) (post : List Nat)
    (hb : b ∈ illegalMUtf8Bytes) :
    ∀ (n : Nat) (pre : List Nat), pre.length ≤ n →
      ∀ out, mUtf8ToUtf16Loop pre = .ok out →
        mUtf8ToUtf16Loop (pre ++ b :: post) = .error .illegalByte := by
  intro n
  induction n with
  | zero =>
      intro pre hlen out h
      have hp : pre = [] := List.eq_nil_of_length_eq_zero (Nat.le_zero.mp hlen)
      subst hp
      exact mUtf8ToUtf16Loop_illegal_head b post hb
  | succ n ih =>
      intro pre hlen out h
      cases pre with
      | nil => exact mUtf8ToUtf16Loop_illegal_head b post hb
      | cons b0 rest =>
        rw [mUtf8ToUtf16Loop.eq_2] at h
        rw [List.cons_append, mUtf8ToUtf16Loop.eq_2]
        by_cases h1 : 1 ≤ b0 ∧ b0 ≤ 127
        · rw [if_pos h1] at h ⊢
          cases hr : mUtf8ToUtf16Loop rest with
          | error e => rw [hr] at h; exact Except.noConfusion h
          | ok out' =>
              rw [ih rest (by simp only [List.length_cons] at hlen; omega) out' hr]
              rfl
        · rw [if_neg h1] at h ⊢
          by_cases h2 : 192 ≤ b0 ∧ b0 ≤ 223
          · rw [if_pos h2] at h ⊢
            cases rest with
            | nil =>
                rw [mUtf8ToUtf16TwoByte.eq_1] at h
                exact Except.noConfusion h
            | cons b1 rest1 =>
                have hlen1 : rest1.length ≤ n := by
                  simp only [List.length_cons] at hlen
                  omega
                rw [mUtf8ToUtf16TwoByte.eq_2] at h
                rw [List.cons_append, mUtf8ToUtf16TwoByte.eq_2]
                by_cases hn : b0 = 192 ∧ b1 = 128
                · rw [if_pos hn] at h ⊢
                  cases hr : mUtf8ToUtf16Loop rest1 with
                  | error e => rw [hr] at h; exact Except.noConfusion h
                  | ok out' => rw [ih rest1 hlen1 out' hr]; rfl
                · rw [if_neg hn] at h ⊢
                  cases hr : mUtf8ToUtf16Loop rest1 with
                  | error e => simp only [hr] at h; exact Except.noConfusion h
                  | ok out' => simp only [ih rest1 hlen1 out' hr]; rfl
          · rw [if_neg h2] at h ⊢
            by_cases h3 : 224 ≤ b0 ∧ b0 ≤ 239
            · rw [if_pos h3] at h ⊢
              cases rest with
              | nil =>
                  rw [mUtf8ToUtf16ThreeByte.eq_2 _ _ (by intro _ _ _ hh; cases hh)] at h
                  exact Except.noConfusion h
              | cons b1 rest1 =>
                cases rest1 with
                | nil =>
                    rw [mUtf8ToUtf16ThreeByte.eq_2 _ _
                      (by intro _ _ _ hh; cases hh)] at h
                    exact Except.noConfusion h
                | cons b2 rest2 =>
                  have hlen2 : rest2.length ≤ n := by
                    simp only [List.length_cons] at hlen
                    omega
                  rw [mUtf8ToUtf16ThreeByte.eq_1] at h
                  rw [List.cons_append, List.cons_append,
                      mUtf8ToUtf16ThreeByte.eq_1]
                  cases hr : mUtf8ToUtf16Loop rest2 with
                  | error e => simp only [hr] at h; exact Except.noConfusion h
                  | ok out' => simp only [ih rest2 hlen2 out' hr]; rfl
            · rw [if_neg h3] at h ⊢
              by_cases h4 : 128 ≤ b0 ∧ b0 ≤ 191
              · rw [if_pos h4] at h
                exact Except.noConfusion h
              · rw [if_neg h4] at h
                exact Except.noConfusion h

/-- The parser's byte-for-byte UTF-8 reader: an illegal byte among the
first `n` bytes (all bytes before it legal) fails the whole count with
`IllegalModifiedUtf8` carrying that byte. -/
theorem countP_modifiedUtf8_illegal :
    ∀ (pre : List Nat) (n : Nat) (b : Nat) (post : List Nat),
      (∀ x ∈ pre, x ∉ illegalMUtf8Bytes) → b ∈ illegalMUtf8Bytes →
      pre.length < n →
      countP modifiedUtf8 n (pre ++ b :: post) =
        .error (.fail [.illegalModifiedUtf8 b]) := by
  intro pre
  induction pre with
  | nil =>
      intro n b post _ hb hn
      cases n with
      | zero => omega
      | succ m =>
          have hm : modifiedUtf8 (b :: post) =
              .error (.fail [.illegalModifiedUtf8 b]) := by
            show (if b ∈ illegalMUtf8Bytes then
                    Except.error (PFail.fail [PError.illegalModifiedUtf8 b])
                  else Except.ok (b, post)) = _
            rw [if_pos hb]
          simp only [List.nil_append, countP]
          exact parser_bind_err hm
  | cons x pre' ih =>
      intro n b post hpre hb hn
      cases n with
      | zero => simp at hn
      | succ m =>
          have hx : x ∉ illegalMUtf8Bytes := hpre x (by simp)
          have hmx : modifiedUtf8 (x :: (pre' ++ b :: post)) =
              .ok (x, pre' ++ b :: post) := by
            show (if x ∈ illegalMUtf8Bytes then
                    Except.error (PFail.fail [PError.illegalModifiedUtf8 x])
                  else Except.ok (x, pre' ++ b :: post)) = _
            rw [if_neg hx]
          have htail : countP modifiedUtf8 m (pre' ++ b :: post) =
              .error (.fail [.illegalModifiedUtf8 b]) :=
            ih m b post (fun y hy => hpre y (by simp [hy])) hb
              (by simp only [List.length_cons] at hn; omega)
          simp only [List.cons_append, countP]
          rw [parser_bind_ok hmx]
          exact parser_bind_err htail

/-- **C4 counterexample.**  The `ModifiedUtf8String` decoding operations
fail on a standalone illegal byte with one and the same error value —
the fixed illegal-byte panic — whether the offending byte is `0x00` or
`0xF0`: the failure does not identify the offending byte, contrary to
the claim. -/
theorem c4_counterexample_error_does_not_identify_byte :
    (ModifiedUtf8String.new [0x00]).toStr = .error .illegalByte ∧
    (ModifiedUtf8String.new [0xF0]).toStr = .error .illegalByte ∧
    (ModifiedUtf8String.new [0x00]).toStr = (ModifiedUtf8String.new [0xF0]).toStr ∧
    (0x00 : Nat) ≠ 0xF0 :=
  ⟨rfl, rfl, rfl, by decide⟩

/-- **C4 (amended).**  A standalone byte `0x00` or `0xF0`–`0xFF` always
fails decoding, and is never silently passed through: the parser's
`Utf8` constant-pool reader fails with an error that records the
offending byte (`IllegalModifiedUtf8 { byte }` under the
`ModifiedUtf8 { length }` context); the `ModifiedUtf8String` operations
`to_string` and `to_utf16` abort (panic) with the fixed illegal-byte
error whenever an illegal byte occurs at a character boundary — after
any cleanly-decodable prefix — though that error does not record the
byte. -/
theorem c4_amended_standalone_illegal_bytes_fail :
    (∀ (pre : List Nat) (b : Nat) (post : List Nat) (n : Nat),
      (∀ x ∈ pre, x ∉ illegalMUtf8Bytes) → b ∈ illegalMUtf8Bytes →
      pre.length < n →
      takeModifiedUtf8 n (pre ++ b :: post) =
        .error (.fail [.modifiedUtf8 n, .illegalModifiedUtf8 b])) ∧
    (∀ (pre out : List Nat) (b : Nat) (post : List Nat),
      mUtf8ToStringLoop pre = .ok out → b ∈ illegalMUtf8Bytes →
      (ModifiedUtf8String.new (pre ++ b :: post)).toStr = .error .illegalByte) ∧
    (∀ (pre out : List Nat) (b : Nat) (post : List Nat),
      mUtf8ToUtf16Loop pre = .ok out → b ∈ illegalMUtf8Bytes →
      (ModifiedUtf8String.new (pre ++ b :: post)).toUtf16 = .error .illegalByte) := by
  refine ⟨?_, ?_, ?_⟩
  · intro pre b post n hpre hb hn
    unfold takeModifiedUtf8
    exact pcut_fail (countP_modifiedUtf8_illegal pre n b post hpre hb hn)
  · intro pre out b post h hb
    have hl := mUtf8ToStringLoop_append_illegal b post hb pre.length pre
      le_rfl out h
    unfold ModifiedUtf8String.toStr ModifiedUtf8String.new
    rw [hl]
    rfl
  · intro pre out b post h hb
    have hl := mUtf8ToUtf16Loop_append_illegal b post hb pre.length pre
      le_rfl out h
    unfold ModifiedUtf8String.toUtf16 ModifiedUtf8String.new
    exact hl

/-- **C4 witness.**  The amended claim at concrete inputs: the parser's
reader on `41 00 42` (three bytes, the middle one illegal) and both
`ModifiedUtf8String` operations on `41 F0` (a legal prefix then an
illegal byte). -/
theorem c4_amended_standalone_illegal_bytes_fail_witness :
    takeModifiedUtf8 3 [0x41, 0x00, 0x42] =
      .error (.fail [.modifiedUtf8 3, .illegalModifiedUtf8 0x00]) ∧
    (ModifiedUtf8String.new [0x41, 0xF0]).toStr = .error .illegalByte ∧
    (ModifiedUtf8String.new [0x41, 0xF0]).toUtf16 = .error .illegalByte := by
  refine ⟨?_, ?_, ?_⟩
  · exact c4_amended_standalone_illegal_bytes_fail.1 [0x41] 0x00 [0x42] 3
      (by decide) (by decide) (by decide)
  · exact c4_amended_standalone_illegal_bytes_fail.2.1 [0x41] [0x41] 0xF0 []
      rfl (by decide)
  · exact c4_amended_standalone_illegal_bytes_fail.2.2 [0x41] [0x41] 0xF0 []
      rfl (by decide)

/-- In every successfully decoded constant pool, a `Long`/`Double`
entry at position `k` of the (zero-indexed) entry vector is immediately
followed by the `unusable` placeholder at position `k + 1`. -/
theorem cpEntries_wide_followed_by_unusable :
    ∀ (rem i : Nat) (input : List Nat) (entries : List CPInfo) (rest : List Nat),
      cpEntriesAux rem i input = .ok (entries, rest) →
      ∀ k e, entries[k]? = some e →
        (e.tag = .long ∨ e.tag = .double) →
        entries[k + 1]? = some .unusable := by
  intro rem
  induction rem using Nat.strong_induction_on with
  | _ rem ih =>
    intro i input entries rest h k e hk he
    cases rem with
    | zero =>
        rw [cpEntriesAux.eq_1] at h
        cases h
        simp at hk
    | succ rem' =>
        rw [cpEntriesAux.eq_2] at h
        cases hc : pcut (PError.constantPoolEntry i) cpInfo input with
        | error e' =>
            simp only [hc] at h
            exact Except.noConfusion h
        | ok pr =>
            obtain ⟨entry, rest0⟩ := pr
            simp only [hc] at h
            by_cases hw : entry.tag = CPTag.long ∨ entry.tag = CPTag.double
            · rw [if_pos hw] at h
              cases rem' with
              | zero =>
                  cases h
                  match k, hk with
                  | 0, hk =>
                      simp at hk ⊢
                  | 1, hk =>
                      simp at hk
                      subst hk
                      simp [CPInfo.tag] at he
                  | n + 2, hk =>
                      simp at hk
              | succ rem'' =>
                  cases hrec : cpEntriesAux rem'' (i + 2) rest0 with
                  | error e' =>
                      simp only [hrec] at h
                      exact Except.noConfusion h
                  | ok pr2 =>
                      obtain ⟨tail, rest2⟩ := pr2
                      simp only [hrec] at h
                      cases h
                      match k, hk with
                      | 0, hk =>
                          simp at hk ⊢
                      | 1, hk =>
                          simp at hk
                          subst hk
                          simp [CPInfo.tag] at he
                      | n + 2, hk =>
                          simp only [List.getElem?_cons_succ] at hk ⊢
                          exact ih rem'' (by omega) (i + 2) rest0 tail _
                            hrec n e hk he
            · rw [if_neg hw] at h
              cases hrec : cpEntriesAux rem' (i + 1) rest0 with
              | error e' =>
                  simp only [hrec] at h
                  exact Except.noConfusion h
              | ok pr2 =>
                  obtain ⟨tail, rest2⟩ := pr2
                  simp only [hrec] at h
                  cases h
                  match k, hk with
                  | 0, hk =>
                      simp at hk
                      subst hk
                      exact absurd he hw
                  | n + 1, hk =>
                      simp only [List.getElem?_cons_succ] at hk ⊢
                      exact ih rem' (by omega) (i + 1) rest0 tail _
                        hrec n e hk he

/-- A tag-checked reference to a slot holding the `unusable` placeholder
fails with `UnexpectedConstantPoolType` recording the index, the
expected tag, and the placeholder's tag. -/
theorem checkCpIndexTag_unusable (cp : ConstantPool) (j : Nat) (tag : CPTag)
    (hget : cp.get j = some .unusable) (htag : tag ≠ .unusable) :
    checkCpIndexTag cp j tag =
      .error (.fail [.unexpectedConstantPoolType j tag .unusable]) := by
  have hne : CPInfo.unusable.tag ≠ tag := fun hh => htag hh.symm
  unfold checkCpIndexTag
  simp only [hget]
  rw [if_neg hne]
  rfl

/-- **C5 counterexample.**  `c5Input` has a `Long` entry at pool index 1
(so index 2 is the unusable placeholder) and one field whose
`name_index` and `descriptor_index` are 2 — a reference to the
placeholder slot from a field — yet the parse succeeds: field
name/descriptor indices are read as plain `cp_index` values with no
validation, so a reference to `i + 1` from a field does not make the
parse fail, contrary to the claim's "from anywhere". -/
theorem c5_counterexample_field_reference_to_placeholder_parses :
    ∃ cf : ClassFile,
      parseClassFile c5Input = .ok (cf, []) ∧
      cf.constantPool.get 1 = some (.long 0 1) ∧
      cf.constantPool.get 2 = some .unusable ∧
      ∃ fi : FieldInfo, cf.fields = [fi] ∧ fi.nameIndex = 2 := by
  have h : parseClassFile c5Input =
      .ok (ClassFile.mk 0 52 ⟨[.long 0 1, .unusable, .class_ 1]⟩
        33 3 0 [] [FieldInfo.mk 0 2 2 []] [] [], []) := rfl
  exact ⟨_, h, rfl, rfl, _, rfl, rfl⟩

/-- **C5 (amended).**  A `Long` (or `Double`) entry makes the following
slot an unusable placeholder — in every parsed pool each wide entry is
immediately followed by `Unusable` — and every **tag-checked** index
reference to such a slot (`this_class`, a nonzero `super_class`, and
every attribute-internal reference that goes through `cp_index_tag` /
`maybe_cp_index_tag`) fails the parse with an
`UnexpectedConstantPoolType` error recording the index and the
placeholder tag; concretely, a class file whose `this_class` is a
placeholder slot fails with exactly that error.  (References read as
plain `cp_index` values — the internal indices of other pool entries,
interface entries, and field/method name/descriptor indices — are not
validated; see the counterexample.) -/
theorem c5_amended_placeholder_slots_reject_tagged_references :
    (∀ (rem i : Nat) (input : List Nat) (entries : List CPInfo) (rest : List Nat),
      cpEntriesAux rem i input = .ok (entries, rest) →
      ∀ k e, entries[k]? = some e →
        (e.tag = .long ∨ e.tag = .double) →
        entries[k + 1]? = some .unusable) ∧
    (∀ (cp : ConstantPool) (tag : CPTag) (b1 b0 : Nat) (rest : List Nat),
      cp.get (b1 * 256 + b0) = some .unusable → tag ≠ .unusable →
      cpIndexTag cp tag (b1 :: b0 :: rest) =
        .error (.fail
          [.unexpectedConstantPoolType (b1 * 256 + b0) tag .unusable])) ∧
    (∀ (cp : ConstantPool) (tag : CPTag) (b1 b0 : Nat) (rest : List Nat),
      cp.get (b1 * 256 + b0) = some .unusable → tag ≠ .unusable →
      b1 * 256 + b0 ≠ 0 →
      maybeCpIndexTag cp tag (b1 :: b0 :: rest) =
        .error (.fail
          [.unexpectedConstantPoolType (b1 * 256 + b0) tag .unusable])) ∧
    parseClassFile c5ThisClassInput =
      .error (.fail [.classFile, .unexpectedConstantPoolType 2 .class_ .unusable]) := by
  refine ⟨cpEntries_wide_followed_by_unusable, ?_, ?_, rfl⟩
  · intro cp tag b1 b0 rest hget htag
    have hchk := checkCpIndexTag_unusable cp (b1 * 256 + b0) tag hget htag
    unfold cpIndexTag
    rw [show beU16 (b1 :: b0 :: rest) = Except.ok (b1 * 256 + b0, rest) from rfl]
    simp only [except_bind_ok]
    rw [hchk]
    rfl
  · intro cp tag b1 b0 rest hget htag hne
    have hchk := checkCpIndexTag_unusable cp (b1 * 256 + b0) tag hget htag
    unfold maybeCpIndexTag
    rw [show beU16 (b1 :: b0 :: rest) = Except.ok (b1 * 256 + b0, rest) from rfl]
    simp only [except_bind_ok]
    rw [if_pos hne, hchk]
    rfl

/-- **C5 witness.**  The amended claim at concrete inputs: the pool
`Long, Unusable, Class` (as decoded from `c5ThisClassInput`'s pool
bytes) has the placeholder after its `Long`, and both reference forms
reject index 2 with the recorded error. -/
theorem c5_amended_placeholder_slots_reject_tagged_references_witness :
    cpEntriesAux 3 0
        [0x05, 0x00, 0x00, 0x00, 0x00, 0x00, 0x00, 0x00, 0x01,
         0x07, 0x00, 0x01] =
      .ok ([.long 0 1, .unusable, .class_ 1], []) ∧
    ([CPInfo.long 0 1, .unusable, .class_ 1][1]? = some .unusable) ∧
    cpIndexTag ⟨[.long 0 1, .unusable, .class_ 1]⟩ .class_ [0, 2] =
      .error (.fail [.unexpectedConstantPoolType 2 .class_ .unusable]) ∧
    maybeCpIndexTag ⟨[.long 0 1, .unusable, .class_ 1]⟩ .class_ [0, 2] =
      .error (.fail [.unexpectedConstantPoolType 2 .class_ .unusable]) := by
  refine ⟨rfl, ?_, ?_, ?_⟩
  · exact c5_amended_placeholder_slots_reject_tagged_references.1 3 0
      [0x05, 0x00, 0x00, 0x00, 0x00, 0x00, 0x00, 0x00, 0x01, 0x07, 0x00, 0x01]
      [.long 0 1, .unusable, .class_ 1] [] rfl 0 (.long 0 1) rfl (by decide)
  · exact c5_amended_placeholder_slots_reject_tagged_references.2.1
      ⟨[.long 0 1, .unusable, .class_ 1]⟩ .class_ 0 2 [] rfl (by decide)
  · exact c5_amended_placeholder_slots_reject_tagged_references.2.2.1
      ⟨[.long 0 1, .unusable, .class_ 1]⟩ .class_ 0 2 [] rfl (by decide) (by decide)

/-- **C9.**  The stack-map-frame parser maps the one-byte frame tag `t`
exactly as the spec's partition requires: 0–63 yields `SameFrame` with
offset delta `t` itself; 64–127 yields `SameLocals1StackItemFrame` with
offset delta `t − 64`; 128–246 is reserved and fails with the
reserved-tag error; 247 yields `SameLocals1StackItemFrameExtended` with
an explicit 2-byte offset; 248–250 yields `ChopFrame` with `251 − t`
items chopped; 251 yields `SameFrameExtended`; 252–254 yields
`AppendFrame` parsing exactly `t − 251` locals; 255 yields `FullFrame`
with explicit locals/stack counts and lists. -/
theorem c9_stack_map_frame_tag_partition (cp : ConstantPool) (t : Nat)
    (input : List Nat) :
    (t ≤ 63 → stackMapFrameP cp (t :: input) = .ok (.sameFrame t, input)) ∧
    (64 ≤ t → t ≤ 127 →
      ∀ v rest, verificationTypeInfoP cp input = .ok (v, rest) →
        stackMapFrameP cp (t :: input) =
          .ok (.sameLocals1StackItemFrame (t - 64) v, rest)) ∧
    (128 ≤ t → t ≤ 246 →
      stackMapFrameP cp (t :: input) =
        .error (.fail [.stackMapFrame, .reservedStackMapFrameTag t])) ∧
    (t = 247 →
      ∀ b1 b0 rest v rest2, input = b1 :: b0 :: rest →
        verificationTypeInfoP cp rest = .ok (v, rest2) →
        stackMapFrameP cp (t :: input) =
          .ok (.sameLocals1StackItemFrameExtended (b1 * 256 + b0) v, rest2)) ∧
    (248 ≤ t → t ≤ 250 →
      ∀ b1 b0 rest, input = b1 :: b0 :: rest →
        stackMapFrameP cp (t :: input) =
          .ok (.chopFrame (b1 * 256 + b0) (251 - t), rest)) ∧
    (t = 251 →
      ∀ b1 b0 rest, input = b1 :: b0 :: rest →
        stackMapFrameP cp (t :: input) =
          .ok (.sameFrameExtended (b1 * 256 + b0), rest)) ∧
    (252 ≤ t → t ≤ 254 →
      ∀ b1 b0 rest locals rest2, input = b1 :: b0 :: rest →
        countP (verificationTypeInfoP cp) (t - 251) rest = .ok (locals, rest2) →
        stackMapFrameP cp (t :: input) =
          .ok (.appendFrame (b1 * 256 + b0) locals, rest2)) ∧
    (t = 255 →
      ∀ b1 b0 rest, input = b1 :: b0 :: rest →
      ∀ n1 n0 rest1, rest = n1 :: n0 :: rest1 →
      ∀ locals m1 m0 rest2,
        countP (verificationTypeInfoP cp) (n1 * 256 + n0) rest1 =
          .ok (locals, m1 :: m0 :: rest2) →
      ∀ stack rest3,
        countP (verificationTypeInfoP cp) (m1 * 256 + m0) rest2 =
          .ok (stack, rest3) →
        stackMapFrameP cp (t :: input) =
          .ok (.fullFrame (b1 * 256 + b0) locals stack, rest3)) := by
  refine ⟨?_, ?_, ?_, ?_, ?_, ?_, ?_, ?_⟩
  · intro h
    have ht : SMFTag.fromByte t = .sameFrame t := by
      unfold SMFTag.fromByte
      rw [if_pos h]
    rw [show stackMapFrameP cp (t :: input) =
          pcut .stackMapFrame (stackMapFrameInfo (SMFTag.fromByte t) cp) input
        from rfl, ht]
    exact pcut_ok rfl
  · intro h1 h2 v rest hv
    have ht : SMFTag.fromByte t = .sameLocals1StackItemFrame t := by
      unfold SMFTag.fromByte
      rw [if_neg (by omega), if_pos (by omega)]
    rw [show stackMapFrameP cp (t :: input) =
          pcut .stackMapFrame (stackMapFrameInfo (SMFTag.fromByte t) cp) input
        from rfl, ht]
    apply pcut_ok
    simp only [stackMapFrameInfo]
    rw [parser_bind_ok hv]
    rfl
  · intro h1 h2
    have ht : SMFTag.fromByte t = .reserved t := by
      unfold SMFTag.fromByte
      rw [if_neg (by omega), if_neg (by omega), if_pos (by omega)]
    rw [show stackMapFrameP cp (t :: input) =
          pcut .stackMapFrame (stackMapFrameInfo (SMFTag.fromByte t) cp) input
        from rfl, ht]
    exact pcut_fail rfl
  · intro h b1 b0 rest v rest2 hin hv
    subst h hin
    rw [show stackMapFrameP cp (247 :: b1 :: b0 :: rest) =
          pcut .stackMapFrame
            (stackMapFrameInfo (SMFTag.fromByte 247) cp) (b1 :: b0 :: rest)
        from rfl]
    apply pcut_ok
    rw [show SMFTag.fromByte 247 = .sameLocals1StackItemFrameExtended 247 from rfl]
    simp only [stackMapFrameInfo]
    rw [parser_bind_ok (show beU16 (b1 :: b0 :: rest) = .ok (b1 * 256 + b0, rest)
          from rfl)]
    rw [parser_bind_ok hv]
    rfl
  · intro h1 h2 b1 b0 rest hin
    subst hin
    have ht : SMFTag.fromByte t = .chopFrame t := by
      unfold SMFTag.fromByte
      rw [if_neg (by omega), if_neg (by omega), if_neg (by omega),
          if_neg (by omega), if_pos (by omega)]
    rw [show stackMapFrameP cp (t :: b1 :: b0 :: rest) =
          pcut .stackMapFrame
            (stackMapFrameInfo (SMFTag.fromByte t) cp) (b1 :: b0 :: rest)
        from rfl, ht]
    apply pcut_ok
    simp only [stackMapFrameInfo]
    rw [parser_bind_ok (show beU16 (b1 :: b0 :: rest) = .ok (b1 * 256 + b0, rest)
          from rfl)]
    rfl
  · intro h b1 b0 rest hin
    subst h hin
    rw [show stackMapFrameP cp (251 :: b1 :: b0 :: rest) =
          pcut .stackMapFrame
            (stackMapFrameInfo (SMFTag.fromByte 251) cp) (b1 :: b0 :: rest)
        from rfl]
    apply pcut_ok
    rw [show SMFTag.fromByte 251 = .sameFrameExtended 251 from rfl]
    simp only [stackMapFrameInfo]
    rw [parser_bind_ok (show beU16 (b1 :: b0 :: rest) = .ok (b1 * 256 + b0, rest)
          from rfl)]
    rfl
  · intro h1 h2 b1 b0 rest locals rest2 hin hc
    subst hin
    have ht : SMFTag.fromByte t = .appendFrame t := by
      unfold SMFTag.fromByte
      rw [if_neg (by omega), if_neg (by omega), if_neg (by omega),
          if_neg (by omega), if_neg (by omega), if_neg (by omega),
          if_pos (by omega)]
    rw [show stackMapFrameP cp (t :: b1 :: b0 :: rest) =
          pcut .stackMapFrame
            (stackMapFrameInfo (SMFTag.fromByte t) cp) (b1 :: b0 :: rest)
        from rfl, ht]
    apply pcut_ok
    simp only [stackMapFrameInfo]
    rw [parser_bind_ok (show beU16 (b1 :: b0 :: rest) = .ok (b1 * 256 + b0, rest)
          from rfl)]
    rw [parser_bind_ok hc]
    rfl
  · intro h b1 b0 rest hin n1 n0 rest1 hrest locals m1 m0 rest2 hl stack rest3 hs
    subst h hin hrest
    rw [show stackMapFrameP cp (255 :: b1 :: b0 :: n1 :: n0 :: rest1) =
          pcut .stackMapFrame
            (stackMapFrameInfo (SMFTag.fromByte 255) cp)
            (b1 :: b0 :: n1 :: n0 :: rest1)
        from rfl]
    apply pcut_ok
    rw [show SMFTag.fromByte 255 = .fullFrame 255 from rfl]
    simp only [stackMapFrameInfo]
    rw [parser_bind_ok (show beU16 (b1 :: b0 :: n1 :: n0 :: rest1) =
          .ok (b1 * 256 + b0, n1 :: n0 :: rest1) from rfl)]
    rw [parser_bind_ok (show beU16 (n1 :: n0 :: rest1) =
          .ok (n1 * 256 + n0, rest1) from rfl)]
    rw [parser_bind_ok hl]
    rw [parser_bind_ok (show beU16 (m1 :: m0 :: rest2) =
          .ok (m1 * 256 + m0, rest2) from rfl)]
    rw [parser_bind_ok hs]
    rfl

/-- **C9 witness.**  The tag partition at concrete inputs: one instance
of every branch of `c9_stack_map_frame_tag_partition`, on an empty
constant pool, with `Top` (tag byte 0) as the verification-type item
where one is needed. -/
theorem c9_stack_map_frame_tag_partition_witness :
    stackMapFrameP ⟨[]⟩ [5] = .ok (.sameFrame 5, []) ∧
    stackMapFrameP ⟨[]⟩ [70, 0] = .ok (.sameLocals1StackItemFrame 6 .top, []) ∧
    stackMapFrameP ⟨[]⟩ [200] =
      .error (.fail [.stackMapFrame, .reservedStackMapFrameTag 200]) ∧
    stackMapFrameP ⟨[]⟩ [247, 1, 2, 0] =
      .ok (.sameLocals1StackItemFrameExtended 258 .top, []) ∧
    stackMapFrameP ⟨[]⟩ [249, 1, 2] = .ok (.chopFrame 258 2, []) ∧
    stackMapFrameP ⟨[]⟩ [251, 1, 2] = .ok (.sameFrameExtended 258, []) ∧
    stackMapFrameP ⟨[]⟩ [253, 1, 2, 0, 0] =
      .ok (.appendFrame 258 [.top, .top], []) ∧
    stackMapFrameP ⟨[]⟩ [255, 1, 2, 0, 1, 0, 0, 1, 0] =
      .ok (.fullFrame 258 [.top] [.top], []) := by
  refine ⟨?_, ?_, ?_, ?_, ?_, ?_, ?_, ?_⟩
  · exact (c9_stack_map_frame_tag_partition ⟨[]⟩ 5 []).1 (by decide)
  · exact (c9_stack_map_frame_tag_partition ⟨[]⟩ 70 [0]).2.1 (by decide)
      (by decide) .top [] rfl
  · exact (c9_stack_map_frame_tag_partition ⟨[]⟩ 200 []).2.2.1 (by decide)
      (by decide)
  · exact (c9_stack_map_frame_tag_partition ⟨[]⟩ 247 [1, 2, 0]).2.2.2.1 rfl
      1 2 [0] .top [] rfl rfl
  · exact (c9_stack_map_frame_tag_partition ⟨[]⟩ 249 [1, 2]).2.2.2.2.1
      (by decide) (by decide) 1 2 [] rfl
  · exact (c9_stack_map_frame_tag_partition ⟨[]⟩ 251 [1, 2]).2.2.2.2.2.1 rfl
      1 2 [] rfl
  · exact (c9_stack_map_frame_tag_partition ⟨[]⟩ 253 [1, 2, 0, 0]).2.2.2.2.2.2.1
      (by decide) (by decide) 1 2 [0, 0] [.top, .top] [] rfl rfl
  · exact (c9_stack_map_frame_tag_partition ⟨[]⟩ 255
        [1, 2, 0, 1, 0, 0, 1, 0]).2.2.2.2.2.2.2 rfl
      1 2 [0, 1, 0, 0, 1, 0] rfl 0 1 [0, 0, 1, 0] rfl [.top] 0 1 [0] rfl
      [.top] [] rfl

/-- Evaluating `lbind` when the first result is fuel exhaustion. -/
theorem lbind_fuel {a b : Type} (r : Option (Except LError a) × List Handle × LState)
    (k : a → List Handle → LState → Option (Except LError b) × List Handle × LState)
    (pp : List Handle) (ss : LState) (h : r = (none, pp, ss)) :
    lbind r k = (none, pp, ss) := by
  rw [h]; rfl

/-- Evaluating `lbind` when the first result is an error. -/
theorem lbind_error {a b : Type} (r : Option (Except LError a) × List Handle × LState)
    (k : a → List Handle → LState → Option (Except LError b) × List Handle × LState)
    (e : LError) (pp : List Handle) (ss : LState)
    (h : r = (some (.error e), pp, ss)) :
    lbind r k = (some (.error e), pp, ss) := by
  rw [h]; rfl

/-- Evaluating `lbind` when the first result succeeds. -/
theorem lbind_ok {a b : Type} (r : Option (Except LError a) × List Handle × LState)
    (k : a → List Handle → LState → Option (Except LError b) × List Handle × LState)
    (v : a) (pp : List Handle) (ss : LState) (h : r = (some (.ok v), pp, ss)) :
    lbind r k = k v pp ss := by
  rw [h]; rfl

/-- `lbind` preserves the pending component whenever its continuation
does. -/
theorem lbind_pending {a b : Type} (r : Option (Except LError a) × List Handle × LState)
    (k : a → List Handle → LState → Option (Except LError b) × List Handle × LState)
    (hk : ∀ v ss, (k v r.2.1 ss).2.1 = r.2.1) :
    (lbind r k).2.1 = r.2.1 := by
  rcases r with ⟨ro, pp, ss⟩
  rcases ro with _ | (e | v)
  · rfl
  · rfl
  · exact hk v ss

/-- One engine step returns the pending set it was given: the handle
marked pending on entry to the dispatch is erased on every exit path. -/
theorem loadStep_pending (bs : List String → LoadOutcome)
    (rec : LCall → LResult) (hrec : ∀ c, (rec c).2.1 = c.pending) :
    ∀ c, (loadStep bs rec c).2.1 = c.pending := by
  intro c
  cases c with
  | impl h p s =>
      show (loadStep bs rec (.impl h p s)).2.1 = p
      cases h with
      | arrayPrim pt =>
          simp only [loadStep]
          by_cases hmem : Handle.arrayPrim pt ∈ p
          · rw [if_pos hmem]
          · rw [if_neg hmem]
            cases hlk : List.lookup (Handle.arrayPrim pt) s.classes with
            | some cid => rfl
            | none =>
                show ((rec (.arrayFinish (.arrayPrim pt) (.arrayPrim pt :: p) s)).2.1).erase
                    (Handle.arrayPrim pt) = p
                rw [hrec (.arrayFinish (.arrayPrim pt) (.arrayPrim pt :: p) s)]
                exact List.erase_cons_head _ _
      | arrayRef comp =>
          simp only [loadStep]
          by_cases hmem : Handle.arrayRef comp ∈ p
          · rw [if_pos hmem]
          · rw [if_neg hmem]
            cases hlk : List.lookup (Handle.arrayRef comp) s.classes with
            | some cid => rfl
            | none =>
                have hstep : (lbind (rec (.impl comp (Handle.arrayRef comp :: p) s))
                    (fun _ p' s' => rec (.arrayFinish (Handle.arrayRef comp) p' s'))).2.1
                    = Handle.arrayRef comp :: p :=
                  (lbind_pending _ _ (fun v ss => hrec _)).trans (hrec _)
                show (lbind (rec (.impl comp (Handle.arrayRef comp :: p) s))
                    (fun _ p' s' => rec (.arrayFinish (Handle.arrayRef comp) p' s'))).2.1.erase
                    (Handle.arrayRef comp) = p
                rw [hstep]
                exact List.erase_cons_head _ _
      | scalar name =>
          simp only [loadStep]
          by_cases hmem : Handle.scalar name ∈ p
          · rw [if_pos hmem]
          · rw [if_neg hmem]
            cases hlk : List.lookup (Handle.scalar name) s.classes with
            | some cid => rfl
            | none =>
                show ((rec (.scalarBody (.scalar name) name (.scalar name :: p) s)).2.1).erase
                    (Handle.scalar name) = p
                rw [hrec (.scalarBody (.scalar name) name (.scalar name :: p) s)]
                exact List.erase_cons_head _ _
  | arrayFinish h p s =>
      show (loadStep bs rec (.arrayFinish h p s)).2.1 = p
      simp only [loadStep]
      exact (lbind_pending _ _ (fun v ss => rfl)).trans (hrec _)
  | scalarBody h name p s =>
      show (loadStep bs rec (.scalarBody h name p s)).2.1 = p
      simp only [loadStep]
      cases hbs : bs name with
      | notFound => rfl
      | malformed => rfl
      | file f =>
          show ((if f.name ≠ name then _ else _ :
              Option (Except LError Nat) × List Handle × LState)).2.1 = p
          by_cases hname : f.name ≠ name
          · rw [if_pos hname]
          · rw [if_neg hname]
            cases hsn : f.superName with
            | none =>
                exact lbind_pending _ _
                  (fun v ss => (lbind_pending _ _ (fun w ss2 => rfl)).trans (hrec _))
            | some sn =>
                exact (lbind_pending _ _
                    (fun v ss => (lbind_pending _ _ (fun w ss2 => rfl)).trans (hrec _))).trans
                  ((lbind_pending _ _ (fun v ss => rfl)).trans (hrec _))
  | seq l p s =>
      show (loadStep bs rec (.seq l p s)).2.1 = p
      cases l with
      | nil => rfl
      | cons h t =>
          simp only [loadStep]
          exact (lbind_pending _ _ (fun v ss => hrec _)).trans (hrec _)

/-- The pending set is returned unchanged by every engine run: no
pending markers leak, whatever the outcome. -/
theorem loadRun_pending (bs : List String → LoadOutcome) :
    ∀ (fuel : Nat) (c : LCall), (loadRun bs fuel c).2.1 = c.pending := by
  intro fuel
  induction fuel with
  | zero => intro c; rfl
  | succ n ih =>
      intro c
      show (loadStep bs (loadRun bs n) c).2.1 = c.pending
      exact loadStep_pending bs (loadRun bs n) ih c

/-- Cache lookup after inserting a binding for the same key. -/
theorem lookup_insert_self {A B : Type} [DecidableEq A] (a : A) (b : B)
    (l : List (A × B)) : List.lookup a ((a, b) :: l) = some b := by
  simp [List.lookup]

/-- Cache lookup after inserting a binding for a different key. -/
theorem lookup_insert_ne {A B : Type} [DecidableEq A] (a a' : A) (b : B)
    (l : List (A × B)) (h : ¬ a = a') :
    List.lookup a ((a', b) :: l) = List.lookup a l := by
  have hb : (a == a') = false := beq_eq_false_iff_ne.mpr h
  simp [List.lookup, hb]

/-- Cache protection: a handle in the pending set at the start of a run
keeps its cache entry, unless it is the very class the call constructs
(`LCall.inserter`) and the call succeeds.  In particular no sub-call
ever caches a class whose resolution is still in progress. -/
theorem loadRun_cache_protect (bs : List String → LoadOutcome) :
    ∀ fuel c r p' s', loadRun bs fuel c = (r, p', s') →
    ∀ g, g ∈ c.pending →
    (LCall.inserter c = some g → ∀ cid, r ≠ some (.ok cid)) →
    List.lookup g s'.classes = List.lookup g c.state.classes := by
  intro fuel
  induction fuel with
  | zero =>
      intro c r p' s' hrun g hg hcond
      simp only [loadRun, Prod.mk.injEq] at hrun
      obtain ⟨rfl, rfl, rfl⟩ := hrun
      rfl
  | succ fuel ih =>
      intro c r p' s' hrun g hg hcond
      simp only [loadRun] at hrun
      cases c with
      | impl h p s =>
          replace hg : g ∈ p := hg
          cases h with
          | arrayPrim pt =>
              simp only [loadStep] at hrun
              by_cases hmem : Handle.arrayPrim pt ∈ p
              · rw [if_pos hmem] at hrun
                simp only [Prod.mk.injEq] at hrun
                obtain ⟨rfl, rfl, rfl⟩ := hrun
                rfl
              · rw [if_neg hmem] at hrun
                cases hlk : List.lookup (Handle.arrayPrim pt) s.classes with
                | some cid =>
                    simp only [hlk, Prod.mk.injEq] at hrun
                    obtain ⟨rfl, rfl, rfl⟩ := hrun
                    rfl
                | none =>
                    simp only [hlk] at hrun
                    rcases hx : loadRun bs fuel
                        (.arrayFinish (.arrayPrim pt) (.arrayPrim pt :: p) s) with
                      ⟨r1, p1, s1⟩
                    rw [hx] at hrun
                    simp only [Prod.mk.injEq] at hrun
                    obtain ⟨rfl, rfl, rfl⟩ := hrun
                    exact ih (.arrayFinish (.arrayPrim pt) (.arrayPrim pt :: p) s)
                      r1 p1 s1 hx g (List.mem_cons_of_mem _ hg)
                      (fun heq _ _ => hmem (by rw [Option.some.inj heq]; exact hg))
          | arrayRef comp =>
              simp only [loadStep] at hrun
              by_cases hmem : Handle.arrayRef comp ∈ p
              · rw [if_pos hmem] at hrun
                simp only [Prod.mk.injEq] at hrun
                obtain ⟨rfl, rfl, rfl⟩ := hrun
                rfl
              · rw [if_neg hmem] at hrun
                cases hlk : List.lookup (Handle.arrayRef comp) s.classes with
                | some cid =>
                    simp only [hlk, Prod.mk.injEq] at hrun
                    obtain ⟨rfl, rfl, rfl⟩ := hrun
                    rfl
                | none =>
                    simp only [hlk] at hrun
                    rcases hx : loadRun bs fuel
                        (.impl comp (Handle.arrayRef comp :: p) s) with ⟨r1, p1, s1⟩
                    rw [hx] at hrun
                    have H1 := ih (.impl comp (Handle.arrayRef comp :: p) s)
                      r1 p1 s1 hx g (List.mem_cons_of_mem _ hg) (fun heq => nomatch heq)
                    rcases r1 with _ | (e | cid1)
                    · simp only [lbind, Prod.mk.injEq] at hrun
                      obtain ⟨rfl, rfl, rfl⟩ := hrun
                      exact H1
                    · simp only [lbind, Prod.mk.injEq] at hrun
                      obtain ⟨rfl, rfl, rfl⟩ := hrun
                      exact H1
                    · simp only [lbind] at hrun
                      rcases hy : loadRun bs fuel
                          (.arrayFinish (.arrayRef comp) p1 s1) with ⟨r2, p2, s2⟩
                      rw [hy] at hrun
                      simp only [Prod.mk.injEq] at hrun
                      obtain ⟨rfl, rfl, rfl⟩ := hrun
                      have hp1 : p1 = Handle.arrayRef comp :: p := by
                        have := loadRun_pending bs fuel
                          (.impl comp (Handle.arrayRef comp :: p) s)
                        rw [hx] at this
                        exact this
                      have H2 := ih (.arrayFinish (.arrayRef comp) p1 s1)
                        r2 p2 s2 hy g (by rw [hp1]; exact List.mem_cons_of_mem _ hg)
                        (fun heq _ _ => hmem (by rw [Option.some.inj heq]; exact hg))
                      exact H2.trans H1
          | scalar name =>
              simp only [loadStep] at hrun
              by_cases hmem : Handle.scalar name ∈ p
              · rw [if_pos hmem] at hrun
                simp only [Prod.mk.injEq] at hrun
                obtain ⟨rfl, rfl, rfl⟩ := hrun
                rfl
              · rw [if_neg hmem] at hrun
                cases hlk : List.lookup (Handle.scalar name) s.classes with
                | some cid =>
                    simp only [hlk, Prod.mk.injEq] at hrun
                    obtain ⟨rfl, rfl, rfl⟩ := hrun
                    rfl
                | none =>
                    simp only [hlk] at hrun
                    rcases hx : loadRun bs fuel
                        (.scalarBody (.scalar name) name (.scalar name :: p) s) with
                      ⟨r1, p1, s1⟩
                    rw [hx] at hrun
                    simp only [Prod.mk.injEq] at hrun
                    obtain ⟨rfl, rfl, rfl⟩ := hrun
                    exact ih (.scalarBody (.scalar name) name (.scalar name :: p) s)
                      r1 p1 s1 hx g (List.mem_cons_of_mem _ hg)
                      (fun heq _ _ => hmem (by rw [Option.some.inj heq]; exact hg))
      | arrayFinish h p s =>
          replace hg : g ∈ p := hg
          simp only [loadStep] at hrun
          rcases hx : loadRun bs fuel (.impl (.scalar objectName) p s) with ⟨r1, p1, s1⟩
          rw [hx] at hrun
          have H1 := ih (.impl (.scalar objectName) p s) r1 p1 s1 hx g hg
            (fun heq => nomatch heq)
          rcases r1 with _ | (e | objectCid)
          · simp only [lbind, Prod.mk.injEq] at hrun
            obtain ⟨rfl, rfl, rfl⟩ := hrun
            exact H1
          · simp only [lbind, Prod.mk.injEq] at hrun
            obtain ⟨rfl, rfl, rfl⟩ := hrun
            exact H1
          · simp only [lbind, Prod.mk.injEq] at hrun
            obtain ⟨rfl, rfl, rfl⟩ := hrun
            by_cases hgh : g = h
            · exact absurd rfl (hcond (by simp only [LCall.inserter, hgh]) s1.store.length)
            · show List.lookup g ((h, s1.store.length) :: s1.classes)
                  = List.lookup g (LCall.arrayFinish h p s).state.classes
              rw [lookup_insert_ne _ _ _ _ hgh]
              exact H1
      | scalarBody h name p s =>
          replace hg : g ∈ p := hg
          simp only [loadStep] at hrun
          cases hbs : bs name with
          | notFound =>
              simp only [hbs, Prod.mk.injEq] at hrun
              obtain ⟨rfl, rfl, rfl⟩ := hrun
              rfl
          | malformed =>
              simp only [hbs, Prod.mk.injEq] at hrun
              obtain ⟨rfl, rfl, rfl⟩ := hrun
              rfl
          | file f =>
              simp only [hbs] at hrun
              by_cases hname : f.name ≠ name
              · rw [if_pos hname] at hrun
                simp only [Prod.mk.injEq] at hrun
                obtain ⟨rfl, rfl, rfl⟩ := hrun
                rfl
              · rw [if_neg hname] at hrun
                cases hsn : f.superName with
                | none =>
                    simp only [hsn, lbind] at hrun
                    rcases hy : loadRun bs fuel (.seq (f.interfaces.map .scalar) p
                        { s with consults := name :: s.consults }) with ⟨r2, p2, s2⟩
                    rw [hy] at hrun
                    have H2 := ih (.seq (f.interfaces.map .scalar) p
                        { s with consults := name :: s.consults }) r2 p2 s2 hy g hg
                      (fun heq => nomatch heq)
                    rcases r2 with _ | (e | u)
                    · simp only [lbind, Prod.mk.injEq] at hrun
                      obtain ⟨rfl, rfl, rfl⟩ := hrun
                      exact H2
                    · simp only [lbind, Prod.mk.injEq] at hrun
                      obtain ⟨rfl, rfl, rfl⟩ := hrun
                      exact H2
                    · simp only [lbind, Prod.mk.injEq] at hrun
                      obtain ⟨rfl, rfl, rfl⟩ := hrun
                      by_cases hgh : g = h
                      · exact absurd rfl
                          (hcond (by simp only [LCall.inserter, hgh]) s2.store.length)
                      · show List.lookup g ((h, s2.store.length) :: s2.classes)
                            = List.lookup g (LCall.scalarBody h name p s).state.classes
                        rw [lookup_insert_ne _ _ _ _ hgh]
                        exact H2
                | some sn =>
                    simp only [hsn] at hrun
                    rcases hx : loadRun bs fuel (.impl (.scalar sn) p
                        { s with consults := name :: s.consults }) with ⟨r1, p1, s1⟩
                    rw [hx] at hrun
                    have H1 := ih (.impl (.scalar sn) p
                        { s with consults := name :: s.consults }) r1 p1 s1 hx g hg
                      (fun heq => nomatch heq)
                    rcases r1 with _ | (e | cid1)
                    · simp only [lbind, Prod.mk.injEq] at hrun
                      obtain ⟨rfl, rfl, rfl⟩ := hrun
                      exact H1
                    · simp only [lbind, Prod.mk.injEq] at hrun
                      obtain ⟨rfl, rfl, rfl⟩ := hrun
                      exact H1
                    · simp only [lbind] at hrun
                      rcases hy : loadRun bs fuel
                          (.seq (f.interfaces.map .scalar) p1 s1) with ⟨r2, p2, s2⟩
                      rw [hy] at hrun
                      have hp1 : p1 = p := by
                        have := loadRun_pending bs fuel (.impl (.scalar sn) p
                          { s with consults := name :: s.consults })
                        rw [hx] at this
                        exact this
                      have H2 := ih (.seq (f.interfaces.map .scalar) p1 s1)
                        r2 p2 s2 hy g (by rw [hp1]; exact hg) (fun heq => nomatch heq)
                      rcases r2 with _ | (e | u)
                      · simp only [lbind, Prod.mk.injEq] at hrun
                        obtain ⟨rfl, rfl, rfl⟩ := hrun
                        exact H2.trans H1
                      · simp only [lbind, Prod.mk.injEq] at hrun
                        obtain ⟨rfl, rfl, rfl⟩ := hrun
                        exact H2.trans H1
                      · simp only [lbind, Prod.mk.injEq] at hrun
                        obtain ⟨rfl, rfl, rfl⟩ := hrun
                        by_cases hgh : g = h
                        · exact absurd rfl
                            (hcond (by simp only [LCall.inserter, hgh]) s2.store.length)
                        · show List.lookup g ((h, s2.store.length) :: s2.classes)
                              = List.lookup g (LCall.scalarBody h name p s).state.classes
                          rw [lookup_insert_ne _ _ _ _ hgh]
                          exact H2.trans H1
      | seq l p s =>
          replace hg : g ∈ p := hg
          cases l with
          | nil =>
              simp only [loadStep, Prod.mk.injEq] at hrun
              obtain ⟨rfl, rfl, rfl⟩ := hrun
              rfl
          | cons h0 t =>
              simp only [loadStep] at hrun
              rcases hx : loadRun bs fuel (.impl h0 p s) with ⟨r1, p1, s1⟩
              rw [hx] at hrun
              have H1 := ih (.impl h0 p s) r1 p1 s1 hx g hg (fun heq => nomatch heq)
              rcases r1 with _ | (e | cid1)
              · simp only [lbind, Prod.mk.injEq] at hrun
                obtain ⟨rfl, rfl, rfl⟩ := hrun
                exact H1
              · simp only [lbind, Prod.mk.injEq] at hrun
                obtain ⟨rfl, rfl, rfl⟩ := hrun
                exact H1
              · simp only [lbind] at hrun
                rcases hy : loadRun bs fuel (.seq t p1 s1) with ⟨r2, p2, s2⟩
                rw [hy] at hrun
                simp only [Prod.mk.injEq] at hrun
                obtain ⟨rfl, rfl, rfl⟩ := hrun
                have hp1 : p1 = p := by
                  have := loadRun_pending bs fuel (.impl h0 p s)
                  rw [hx] at this
                  exact this
                have H2 := ih (.seq t p1 s1) r2 p2 s2 hy g (by rw [hp1]; exact hg)
                  (fun heq => nomatch heq)
                exact H2.trans H1

/-- Success is cached: when a run of any handle-resolving call shape
returns `ok cid`, the final state's cache maps that call's handle
(`LCall.target`) to `cid`. -/
theorem loadRun_ok_cached (bs : List String → LoadOutcome) :
    ∀ fuel c cid p' s', loadRun bs fuel c = (some (.ok cid), p', s') →
    ∀ h0, LCall.target c = some h0 →
    List.lookup h0 s'.classes = some cid := by
  intro fuel
  induction fuel with
  | zero =>
      intro c cid p' s' hrun h0 ht
      simp only [loadRun] at hrun
      simp at hrun
  | succ fuel ih =>
      intro c cid p' s' hrun h0 ht
      simp only [loadRun] at hrun
      cases c with
      | impl h p s =>
          obtain rfl : h = h0 := Option.some.inj ht
          cases h with
          | arrayPrim pt =>
              simp only [loadStep] at hrun
              by_cases hmem : Handle.arrayPrim pt ∈ p
              · rw [if_pos hmem] at hrun
                simp at hrun
              · rw [if_neg hmem] at hrun
                cases hlk : List.lookup (Handle.arrayPrim pt) s.classes with
                | some cid0 =>
                    simp only [hlk, Prod.mk.injEq, Option.some.injEq,
                      Except.ok.injEq] at hrun
                    obtain ⟨rfl, rfl, rfl⟩ := hrun
                    exact hlk
                | none =>
                    simp only [hlk] at hrun
                    rcases hx : loadRun bs fuel
                        (.arrayFinish (.arrayPrim pt) (.arrayPrim pt :: p) s) with
                      ⟨r1, p1, s1⟩
                    rw [hx] at hrun
                    simp only [Prod.mk.injEq] at hrun
                    obtain ⟨rfl, rfl, rfl⟩ := hrun
                    exact ih (.arrayFinish (.arrayPrim pt) (.arrayPrim pt :: p) s)
                      cid p1 s1 hx (Handle.arrayPrim pt) rfl
          | arrayRef comp =>
              simp only [loadStep] at hrun
              by_cases hmem : Handle.arrayRef comp ∈ p
              · rw [if_pos hmem] at hrun
                simp at hrun
              · rw [if_neg hmem] at hrun
                cases hlk : List.lookup (Handle.arrayRef comp) s.classes with
                | some cid0 =>
                    simp only [hlk, Prod.mk.injEq, Option.some.injEq,
                      Except.ok.injEq] at hrun
                    obtain ⟨rfl, rfl, rfl⟩ := hrun
                    exact hlk
                | none =>
                    simp only [hlk] at hrun
                    rcases hx : loadRun bs fuel
                        (.impl comp (Handle.arrayRef comp :: p) s) with ⟨r1, p1, s1⟩
                    rw [hx] at hrun
                    rcases r1 with _ | (e | cid1)
                    · simp only [lbind] at hrun
                      simp at hrun
                    · simp only [lbind] at hrun
                      simp at hrun
                    · simp only [lbind] at hrun
                      rcases hy : loadRun bs fuel
                          (.arrayFinish (.arrayRef comp) p1 s1) with ⟨r2, p2, s2⟩
                      rw [hy] at hrun
                      simp only [Prod.mk.injEq] at hrun
                      obtain ⟨rfl, rfl, rfl⟩ := hrun
                      exact ih (.arrayFinish (.arrayRef comp) p1 s1)
                        cid p2 s2 hy (Handle.arrayRef comp) rfl
          | scalar name =>
              simp only [loadStep] at hrun
              by_cases hmem : Handle.scalar name ∈ p
              · rw [if_pos hmem] at hrun
                simp at hrun
              · rw [if_neg hmem] at hrun
                cases hlk : List.lookup (Handle.scalar name) s.classes with
                | some cid0 =>
                    simp only [hlk, Prod.mk.injEq, Option.some.injEq,
                      Except.ok.injEq] at hrun
                    obtain ⟨rfl, rfl, rfl⟩ := hrun
                    exact hlk
                | none =>
                    simp only [hlk] at hrun
                    rcases hx : loadRun bs fuel
                        (.scalarBody (.scalar name) name (.scalar name :: p) s) with
                      ⟨r1, p1, s1⟩
                    rw [hx] at hrun
                    simp only [Prod.mk.injEq] at hrun
                    obtain ⟨rfl, rfl, rfl⟩ := hrun
                    exact ih (.scalarBody (.scalar name) name (.scalar name :: p) s)
                      cid p1 s1 hx (Handle.scalar name) rfl
      | arrayFinish h p s =>
          obtain rfl : h = h0 := Option.some.inj ht
          simp only [loadStep] at hrun
          rcases hx : loadRun bs fuel (.impl (.scalar objectName) p s) with ⟨r1, p1, s1⟩
          rw [hx] at hrun
          rcases r1 with _ | (e | objectCid)
          · simp only [lbind] at hrun
            simp at hrun
          · simp only [lbind] at hrun
            simp at hrun
          · simp only [lbind, Prod.mk.injEq, Option.some.injEq, Except.ok.injEq] at hrun
            obtain ⟨rfl, rfl, rfl⟩ := hrun
            exact lookup_insert_self _ _ _
      | scalarBody h name p s =>
          obtain rfl : h = h0 := Option.some.inj ht
          simp only [loadStep] at hrun
          cases hbs : bs name with
          | notFound =>
              simp only [hbs] at hrun
              simp at hrun
          | malformed =>
              simp only [hbs] at hrun
              simp at hrun
          | file f =>
              simp only [hbs] at hrun
              by_cases hname : f.name ≠ name
              · rw [if_pos hname] at hrun
                simp at hrun
              · rw [if_neg hname] at hrun
                cases hsn : f.superName with
                | none =>
                    simp only [hsn, lbind] at hrun
                    rcases hy : loadRun bs fuel (.seq (f.interfaces.map .scalar) p
                        { s with consults := name :: s.consults }) with ⟨r2, p2, s2⟩
                    rw [hy] at hrun
                    rcases r2 with _ | (e | u)
                    · simp only [lbind] at hrun
                      simp at hrun
                    · simp only [lbind] at hrun
                      simp at hrun
                    · simp only [lbind, Prod.mk.injEq, Option.some.injEq,
                        Except.ok.injEq] at hrun
                      obtain ⟨rfl, rfl, rfl⟩ := hrun
                      exact lookup_insert_self _ _ _
                | some sn =>
                    simp only [hsn] at hrun
                    rcases hx : loadRun bs fuel (.impl (.scalar sn) p
                        { s with consults := name :: s.consults }) with ⟨r1, p1, s1⟩
                    rw [hx] at hrun
                    rcases r1 with _ | (e | cid1)
                    · simp only [lbind] at hrun
                      simp at hrun
                    · simp only [lbind] at hrun
                      simp at hrun
                    · simp only [lbind] at hrun
                      rcases hy : loadRun bs fuel
                          (.seq (f.interfaces.map .scalar) p1 s1) with ⟨r2, p2, s2⟩
                      rw [hy] at hrun
                      rcases r2 with _ | (e | u)
                      · simp only [lbind] at hrun
                        simp at hrun
                      · simp only [lbind] at hrun
                        simp at hrun
                      · simp only [lbind, Prod.mk.injEq, Option.some.injEq,
                          Except.ok.injEq] at hrun
                        obtain ⟨rfl, rfl, rfl⟩ := hrun
                        exact lookup_insert_self _ _ _
      | seq l p s =>
          exact absurd ht (fun hh => Option.noConfusion hh)

/-- Failures are not memoized: when `load_class_impl` does not succeed,
the requested handle's cache entry is exactly what it was before the
call. -/
theorem loadRun_error_not_cached (bs : List String → LoadOutcome) :
    ∀ fuel h p s r p' s', loadRun bs fuel (.impl h p s) = (r, p', s') →
    (∀ cid, r ≠ some (.ok cid)) →
    List.lookup h s'.classes = List.lookup h s.classes := by
  intro fuel
  cases fuel with
  | zero =>
      intro h p s r p' s' hrun hcond
      simp only [loadRun, Prod.mk.injEq] at hrun
      obtain ⟨rfl, rfl, rfl⟩ := hrun
      rfl
  | succ fuel =>
      intro h p s r p' s' hrun hcond
      simp only [loadRun] at hrun
      cases h with
      | arrayPrim pt =>
          simp only [loadStep] at hrun
          by_cases hmem : Handle.arrayPrim pt ∈ p
          · rw [if_pos hmem] at hrun
            simp only [Prod.mk.injEq] at hrun
            obtain ⟨rfl, rfl, rfl⟩ := hrun
            rfl
          · rw [if_neg hmem] at hrun
            cases hlk : List.lookup (Handle.arrayPrim pt) s.classes with
            | some cid0 =>
                simp only [hlk, Prod.mk.injEq] at hrun
                obtain ⟨rfl, rfl, rfl⟩ := hrun
                exact absurd rfl (hcond cid0)
            | none =>
                simp only [hlk] at hrun
                rcases hx : loadRun bs fuel
                    (.arrayFinish (.arrayPrim pt) (.arrayPrim pt :: p) s) with
                  ⟨r1, p1, s1⟩
                rw [hx] at hrun
                simp only [Prod.mk.injEq] at hrun
                obtain ⟨rfl, rfl, rfl⟩ := hrun
                exact (loadRun_cache_protect bs fuel
                  (.arrayFinish (.arrayPrim pt) (.arrayPrim pt :: p) s) r1 p1 s1 hx
                  (Handle.arrayPrim pt) (List.mem_cons_self _ _)
                  (fun _ => hcond)).trans hlk
      | arrayRef comp =>
          simp only [loadStep] at hrun
          by_cases hmem : Handle.arrayRef comp ∈ p
          · rw [if_pos hmem] at hrun
            simp only [Prod.mk.injEq] at hrun
            obtain ⟨rfl, rfl, rfl⟩ := hrun
            rfl
          · rw [if_neg hmem] at hrun
            cases hlk : List.lookup (Handle.arrayRef comp) s.classes with
            | some cid0 =>
                simp only [hlk, Prod.mk.injEq] at hrun
                obtain ⟨rfl, rfl, rfl⟩ := hrun
                exact absurd rfl (hcond cid0)
            | none =>
                simp only [hlk] at hrun
                rcases hx : loadRun bs fuel
                    (.impl comp (Handle.arrayRef comp :: p) s) with ⟨r1, p1, s1⟩
                rw [hx] at hrun
                have H1 := loadRun_cache_protect bs fuel
                  (.impl comp (Handle.arrayRef comp :: p) s) r1 p1 s1 hx
                  (Handle.arrayRef comp) (List.mem_cons_self _ _)
                  (fun heq => nomatch heq)
                rcases r1 with _ | (e | cid1)
                · simp only [lbind, Prod.mk.injEq] at hrun
                  obtain ⟨rfl, rfl, rfl⟩ := hrun
                  exact H1.trans hlk
                · simp only [lbind, Prod.mk.injEq] at hrun
                  obtain ⟨rfl, rfl, rfl⟩ := hrun
                  exact H1.trans hlk
                · simp only [lbind] at hrun
                  rcases hy : loadRun bs fuel
                      (.arrayFinish (.arrayRef comp) p1 s1) with ⟨r2, p2, s2⟩
                  rw [hy] at hrun
                  simp only [Prod.mk.injEq] at hrun
                  obtain ⟨rfl, rfl, rfl⟩ := hrun
                  have hp1 : p1 = Handle.arrayRef comp :: p := by
                    have := loadRun_pending bs fuel
                      (.impl comp (Handle.arrayRef comp :: p) s)
                    rw [hx] at this
                    exact this
                  have H2 := loadRun_cache_protect bs fuel
                    (.arrayFinish (.arrayRef comp) p1 s1) r2 p2 s2 hy
                    (Handle.arrayRef comp) (by rw [hp1]; exact List.mem_cons_self _ _)
                    (fun _ => hcond)
                  exact (H2.trans H1).trans hlk
      | scalar name =>
          simp only [loadStep] at hrun
          by_cases hmem : Handle.scalar name ∈ p
          · rw [if_pos hmem] at hrun
            simp only [Prod.mk.injEq] at hrun
            obtain ⟨rfl, rfl, rfl⟩ := hrun
            rfl
          · rw [if_neg hmem] at hrun
            cases hlk : List.lookup (Handle.scalar name) s.classes with
            | some cid0 =>
                simp only [hlk, Prod.mk.injEq] at hrun
                obtain ⟨rfl, rfl, rfl⟩ := hrun
                exact absurd rfl (hcond cid0)
            | none =>
                simp only [hlk] at hrun
                rcases hx : loadRun bs fuel
                    (.scalarBody (.scalar name) name (.scalar name :: p) s) with
                  ⟨r1, p1, s1⟩
                rw [hx] at hrun
                simp only [Prod.mk.injEq] at hrun
                obtain ⟨rfl, rfl, rfl⟩ := hrun
                exact (loadRun_cache_protect bs fuel
                  (.scalarBody (.scalar name) name (.scalar name :: p) s) r1 p1 s1 hx
                  (Handle.scalar name) (List.mem_cons_self _ _)
                  (fun _ => hcond)).trans hlk

/-- The pending-set guard: a handle already in the pending set fails
immediately with the circularity error, leaving the state untouched,
whatever fuel remains. -/
theorem loadRun_pending_hit (bs : List String → LoadOutcome) (fuel : Nat)
    (h : Handle) (p : List Handle) (s : LState) (hmem : h ∈ p) :
    loadRun bs (fuel + 1) (.impl h p s)
      = (some (.error .classCircularity), p, s) := by
  simp only [loadRun, loadStep]
  rw [if_pos hmem]

/-- Evaluation of one scalar `load_class_impl` dispatch (pending miss,
cache miss) in terms of the body's run. -/
theorem loadRun_impl_scalar_step (bs : List String → LoadOutcome) (fuel : Nat)
    (name : List String) (p : List Handle) (s : LState)
    (hmem : Handle.scalar name ∉ p)
    (hlk : List.lookup (Handle.scalar name) s.classes = none)
    (r1 : Option (Except LError Nat)) (p1 : List Handle) (s1 : LState)
    (hbody : loadRun bs fuel
        (.scalarBody (.scalar name) name (Handle.scalar name :: p) s)
      = (r1, p1, s1)) :
    loadRun bs (fuel + 1) (.impl (.scalar name) p s)
      = (r1, p1.erase (.scalar name), s1) := by
  simp only [loadRun, loadStep]
  rw [if_neg hmem]
  rw [hlk]
  rw [hbody]

/-- Evaluation of the scalar body when the parse succeeds, the name
matches, and resolving the declared superclass fails. -/
theorem loadRun_scalarBody_super_err (bs : List String → LoadOutcome) (fuel : Nat)
    (h : Handle) (name : List String) (p : List Handle) (s : LState) (f : CDesc)
    (sn : List String) (e : LError) (p1 : List Handle) (s1 : LState)
    (hbs : bs name = .file f) (hname : f.name = name) (hsn : f.superName = some sn)
    (hsup : loadRun bs fuel
        (.impl (.scalar sn) p { s with consults := name :: s.consults })
      = (some (.error e), p1, s1)) :
    loadRun bs (fuel + 1) (.scalarBody h name p s) = (some (.error e), p1, s1) := by
  simp only [loadRun, loadStep]
  rw [hbs]
  show ((if f.name ≠ name then _ else _ :
      Option (Except LError Nat) × List Handle × LState)) = _
  rw [if_neg (show ¬ f.name ≠ name from fun hh => hh hname)]
  rw [hsn]
  show lbind (lbind (loadRun bs fuel
      (.impl (.scalar sn) p { s with consults := name :: s.consults })) _) _ = _
  rw [lbind_error _ _ _ _ _ hsup]
  rfl

/-- **C6.**  `load_class` is idempotent: if a load of handle `h`
succeeds with class id `cid` and final state `s'`, then a repeated
`load_class` of `h` on the resulting loader (any positive fuel) returns
the same `cid` — the identical cached instance, `Rc` identity being
modelled by the store id — with the state completely unchanged: nothing
is inserted again and the byte source is not consulted again. -/
theorem c6_load_class_idempotent (bs : List String → LoadOutcome) (fuel : Nat)
    (h : Handle) (s : LState) (cid : Nat) (p' : List Handle) (s' : LState)
    (hfirst : loadClass bs fuel h s = (some (.ok cid), p', s')) (fuel2 : Nat) :
    loadClass bs (fuel2 + 1) h s' = (some (.ok cid), [], s') := by
  have hc : List.lookup h s'.classes = some cid :=
    loadRun_ok_cached bs fuel (.impl h [] s) cid p' s' hfirst h rfl
  show loadRun bs (fuel2 + 1) (.impl h [] s') = _
  simp only [loadRun, loadStep]
  rw [if_neg (List.not_mem_nil h)]
  rw [hc]

/-- Witness for C6: loading `java/lang/Object` from `bsObj` succeeds and
caches it with id 0 after one consultation; the theorem applied to that
run shows the second load returns id 0 with the state unchanged. -/
theorem c6_load_class_idempotent_witness :
    loadClass bsObj 3 (.scalar objectName) .empty
      = (some (.ok 0), [],
          ⟨[(.scalar objectName, 0)], [⟨.scalar objectName, none, []⟩], [objectName]⟩)
    ∧ loadClass bsObj 1 (.scalar objectName)
        ⟨[(.scalar objectName, 0)], [⟨.scalar objectName, none, []⟩], [objectName]⟩
      = (some (.ok 0), [],
          ⟨[(.scalar objectName, 0)], [⟨.scalar objectName, none, []⟩], [objectName]⟩) :=
  ⟨rfl, c6_load_class_idempotent bsObj 3 (.scalar objectName) .empty 0 []
    ⟨[(.scalar objectName, 0)], [⟨.scalar objectName, none, []⟩], [objectName]⟩ rfl 0⟩

/-- **C7.**  The pending-set membership check is what detects
circularity: (1) in full generality, a handle already in the pending set
fails immediately with the circularity error whatever fuel remains (the
check is not a depth counter); (2) for the mutually-referential pair
`A extends B`, `B extends A` of `bsAB`, loading `A` fails with exactly
the circularity error at every sufficient recursion depth, with both
class files consulted once and nothing cached. -/
theorem c7_pending_guard_detects_circularity :
    (∀ (bs : List String → LoadOutcome) (fuel : Nat) (h : Handle)
        (p : List Handle) (s : LState), h ∈ p →
        loadRun bs (fuel + 1) (.impl h p s)
          = (some (.error .classCircularity), p, s))
    ∧ ∀ n : Nat, loadClass bsAB (n + 5) (.scalar ["A"]) .empty
        = (some (.error .classCircularity), [], ⟨[], [], [["B"], ["A"]]⟩) := by
  refine ⟨fun bs fuel h p s hmem => loadRun_pending_hit bs fuel h p s hmem,
    fun n => ?_⟩
  have h4 : loadRun bsAB (n + 1)
      (.impl (.scalar ["A"]) [.scalar ["B"], .scalar ["A"]] ⟨[], [], [["B"], ["A"]]⟩)
      = (some (.error .classCircularity), [.scalar ["B"], .scalar ["A"]],
          ⟨[], [], [["B"], ["A"]]⟩) :=
    loadRun_pending_hit bsAB n _ _ _ (by decide)
  have h3 : loadRun bsAB (n + 2)
      (.scalarBody (.scalar ["B"]) ["B"] [.scalar ["B"], .scalar ["A"]]
        ⟨[], [], [["A"]]⟩)
      = (some (.error .classCircularity), [.scalar ["B"], .scalar ["A"]],
          ⟨[], [], [["B"], ["A"]]⟩) :=
    loadRun_scalarBody_super_err bsAB (n + 1) _ ["B"] _ _ ⟨["B"], some ["A"], []⟩
      ["A"] _ _ _ rfl rfl rfl h4
  have h2 : loadRun bsAB (n + 3)
      (.impl (.scalar ["B"]) [.scalar ["A"]] ⟨[], [], [["A"]]⟩)
      = (some (.error .classCircularity), [.scalar ["A"]],
          ⟨[], [], [["B"], ["A"]]⟩) :=
    loadRun_impl_scalar_step bsAB (n + 2) ["B"] [.scalar ["A"]] ⟨[], [], [["A"]]⟩
      (by decide) rfl _ _ _ h3
  have h1 : loadRun bsAB (n + 4)
      (.scalarBody (.scalar ["A"]) ["A"] [.scalar ["A"]] ⟨[], [], []⟩)
      = (some (.error .classCircularity), [.scalar ["A"]],
          ⟨[], [], [["B"], ["A"]]⟩) :=
    loadRun_scalarBody_super_err bsAB (n + 3) _ ["A"] _ _ ⟨["A"], some ["B"], []⟩
      ["B"] _ _ _ rfl rfl rfl h2
  exact loadRun_impl_scalar_step bsAB (n + 4) ["A"] [] ⟨[], [], []⟩
    (by decide) rfl _ _ _ h1

/-- Witness for C7: the guard fires at once when `A` is already pending,
and the concrete `A <-> B` scenario fails with the circularity error at
the minimal depth. -/
theorem c7_pending_guard_detects_circularity_witness :
    loadRun bsAB 1 (.impl (.scalar ["A"]) [.scalar ["A"]] .empty)
      = (some (.error .classCircularity), [.scalar ["A"]], .empty)
    ∧ loadClass bsAB 5 (.scalar ["A"]) .empty
      = (some (.error .classCircularity), [], ⟨[], [], [["B"], ["A"]]⟩) :=
  ⟨c7_pending_guard_detects_circularity.1 bsAB 0 (.scalar ["A"]) [.scalar ["A"]]
      .empty (by decide),
    c7_pending_guard_detects_circularity.2 0⟩

/-- **C8 counterexample.**  A failed `load_class` call can change the
class cache: loading the array class `C[]` from `bsC` resolves and
caches the component class `C`, then fails with `ClassNotFound` on the
root class — the call returns an error, yet the cache now holds `C`.
The claim's "if the call returns an error the class cache is unchanged"
is therefore false; only the entry of the requested handle itself is
protected. -/
theorem c8_counterexample_failed_load_retains_subsidiary_cache :
    loadClass bsC 4 (.arrayRef (.scalar ["C"])) .empty
      = (some (.error .classNotFound), [],
          ⟨[(.scalar ["C"], 0)], [⟨.scalar ["C"], none, []⟩], [objectName, ["C"]]⟩)
    ∧ ([(.scalar ["C"], 0)] : List (Handle × Nat)) ≠ LState.empty.classes :=
  ⟨rfl, by decide⟩

/-- **C8 amended.**  After every `load_class` call, success or failure,
the pending set is empty again (no leaked pending markers); and when the
call does not succeed, the cache entry of the requested handle is
exactly what it was before the call — failures are not memoized, so a
later resolution of the same handle proceeds independently.  (The cache
as a whole may grow on a failed call: subsidiary classes fully resolved
along the way stay cached, as the counterexample shows.) -/
theorem c8_amended_pending_restored_and_failures_not_memoized
    (bs : List String → LoadOutcome) (fuel : Nat) (h : Handle) (s : LState)
    (r : Option (Except LError Nat)) (p' : List Handle) (s' : LState)
    (hrun : loadClass bs fuel h s = (r, p', s')) :
    p' = [] ∧ ((∀ cid, r ≠ some (.ok cid)) →
      List.lookup h s'.classes = List.lookup h s.classes) := by
  have hrun' : loadRun bs fuel (.impl h [] s) = (r, p', s') := hrun
  refine ⟨?_, fun hcond =>
    loadRun_error_not_cached bs fuel h [] s r p' s' hrun' hcond⟩
  have hp := loadRun_pending bs fuel (.impl h [] s)
  rw [hrun'] at hp
  exact hp

/-- Witness for C8: applied to the failing `C[]` load, the theorem
yields the restored pending set and the unchanged (absent) cache entry
for `C[]` itself. -/
theorem c8_amended_pending_restored_and_failures_not_memoized_witness :
    ([] : List Handle) = []
    ∧ List.lookup (Handle.arrayRef (.scalar ["C"]))
        (⟨[(.scalar ["C"], 0)], [⟨.scalar ["C"], none, []⟩],
          [objectName, ["C"]]⟩ : LState).classes
      = List.lookup (Handle.arrayRef (.scalar ["C"])) LState.empty.classes :=
  ⟨(c8_amended_pending_restored_and_failures_not_memoized bsC 4
      (.arrayRef (.scalar ["C"])) .empty (some (.error .classNotFound)) []
      ⟨[(.scalar ["C"], 0)], [⟨.scalar ["C"], none, []⟩], [objectName, ["C"]]⟩
      rfl).1,
    (c8_amended_pending_restored_and_failures_not_memoized bsC 4
      (.arrayRef (.scalar ["C"])) .empty (some (.error .classNotFound)) []
      ⟨[(.scalar ["C"], 0)], [⟨.scalar ["C"], none, []⟩], [objectName, ["C"]]⟩
      rfl).2 (fun _ hcid => Except.noConfusion (Option.some.inj hcid))⟩

/-- Every method recorded by a successful `Class::new` method loop went
through a successful `Method::new`: each of its `MethodInfo`s carries a
`Code` attribute. -/
theorem classMethodsBuild_code (symref : Handle) (rp : RuntimeConstantPool) :
    ∀ (l : List MethodInfo) (ms : List (MethodHandleKey × VMethod)),
    classMethodsBuild symref rp l = some ms →
    ∀ mi ∈ l, findCodeAttribute mi.attributes ≠ none := by
  intro l
  induction l with
  | nil =>
      intro ms _ mi hmi
      exact absurd hmi (List.not_mem_nil mi)
  | cons mi0 rest ih =>
      intro ms hbuild mi hmi
      simp only [classMethodsBuild, Option.bind_eq_bind] at hbuild
      cases hname : rp.lookupRawString mi0.nameIndex with
      | none =>
          rw [hname] at hbuild
          simp at hbuild
      | some name =>
          rw [hname] at hbuild
          simp only [Option.some_bind] at hbuild
          cases hdesc : rp.lookupRawString mi0.descriptorIndex with
          | none =>
              rw [hdesc] at hbuild
              simp at hbuild
          | some descriptor =>
              rw [hdesc] at hbuild
              simp only [Option.some_bind] at hbuild
              cases hm : VMethod.new ⟨symref, ⟨name, descriptor⟩⟩ mi0 with
              | none =>
                  rw [hm] at hbuild
                  simp at hbuild
              | some m =>
                  rw [hm] at hbuild
                  simp only [Option.some_bind] at hbuild
                  cases htail : classMethodsBuild symref rp rest with
                  | none =>
                      rw [htail] at hbuild
                      simp at hbuild
                  | some tail =>
                      rcases List.mem_cons.mp hmi with rfl | hmi2
                      · intro hnone
                        unfold VMethod.new at hm
                        simp only [hnone] at hm
                        exact Option.noConfusion hm
                      · exact ih tail htail mi hmi2

/-- **C10.**  `Method::new` panics exactly when the method has no `Code`
attribute, and otherwise builds the method from the first `Code`
attribute's bytecode and exception table; consequently every method of a
class file that `Class::new` turns into a `Class` without panicking
carries a `Code` attribute, and a class file containing any method
without one (an abstract or native method) makes `Class::new` hit a
panic branch. -/
theorem c10_every_method_requires_code_attribute :
    (∀ (sr : MethodSymref) (mi : MethodInfo),
        VMethod.new sr mi = none ↔ findCodeAttribute mi.attributes = none)
    ∧ (∀ (sr : MethodSymref) (mi : MethodInfo) (m : VMethod),
        VMethod.new sr mi = some m →
        findCodeAttribute mi.attributes = some (m.code, m.exceptionTable))
    ∧ (∀ (symref : Handle) (sc : Option Nat) (rp : RuntimeConstantPool)
        (cf : ClassFile) (v : VClass), VClass.new symref sc rp cf = some v →
        ∀ mi ∈ cf.methods, findCodeAttribute mi.attributes ≠ none)
    ∧ (∀ (symref : Handle) (sc : Option Nat) (rp : RuntimeConstantPool)
        (cf : ClassFile),
        (∃ mi ∈ cf.methods, findCodeAttribute mi.attributes = none) →
        VClass.new symref sc rp cf = none) := by
  have key : ∀ (symref : Handle) (sc : Option Nat) (rp : RuntimeConstantPool)
      (cf : ClassFile) (v : VClass), VClass.new symref sc rp cf = some v →
      ∀ mi ∈ cf.methods, findCodeAttribute mi.attributes ≠ none := by
    intro symref sc rp cf v hv mi hmi
    simp only [VClass.new, Option.bind_eq_bind] at hv
    cases hfb : classFieldsBuild rp cf.fields with
    | none =>
        rw [hfb] at hv
        simp at hv
    | some fm =>
        rw [hfb] at hv
        simp only [Option.some_bind] at hv
        cases hmb : classMethodsBuild symref rp cf.methods with
        | none =>
            rw [hmb] at hv
            simp at hv
        | some ms =>
            exact classMethodsBuild_code symref rp cf.methods ms hmb mi hmi
  refine ⟨?_, ?_, key, ?_⟩
  · intro sr mi
    cases hf : findCodeAttribute mi.attributes with
    | none => simp [VMethod.new, hf]
    | some ce =>
        obtain ⟨c, et⟩ := ce
        simp [VMethod.new, hf]
  · intro sr mi m hm
    unfold VMethod.new at hm
    cases hf : findCodeAttribute mi.attributes with
    | none =>
        simp only [hf] at hm
        exact Option.noConfusion hm
    | some ce =>
        obtain ⟨c, et⟩ := ce
        simp only [hf] at hm
        obtain rfl := Option.some.inj hm
        rfl
  · intro symref sc rp cf hex
    obtain ⟨mi, hmi, hnone⟩ := hex
    cases hv : VClass.new symref sc rp cf with
    | none => rfl
    | some v => exact absurd hnone (key symref sc rp cf v hv mi hmi)

/-- Witness for C10: a method with an empty attribute list makes
`Method::new` panic, and a class file holding that single method makes
`Class::new` panic. -/
theorem c10_every_method_requires_code_attribute_witness :
    VMethod.new ⟨.scalar ["X"], ⟨[0x6d], [0x28, 0x29, 0x56]⟩⟩
        (MethodInfo.mk 0 1 2 []) = none
    ∧ VClass.new (.scalar ["X"]) none ⟨[]⟩
        (ClassFile.mk 0 52 ⟨[]⟩ 0 0 0 [] [] [MethodInfo.mk 0 1 2 []] []) = none :=
  ⟨(c10_every_method_requires_code_attribute.1
      ⟨.scalar ["X"], ⟨[0x6d], [0x28, 0x29, 0x56]⟩⟩ (MethodInfo.mk 0 1 2 [])).mpr rfl,
    c10_every_method_requires_code_attribute.2.2.2 (.scalar ["X"]) none ⟨[]⟩
      (ClassFile.mk 0 52 ⟨[]⟩ 0 0 0 [] [] [MethodInfo.mk 0 1 2 []] [])
      ⟨MethodInfo.mk 0 1 2 [], List.mem_singleton.mpr rfl, rfl⟩⟩

/-- **C1.**  The constant pool of `c1Input` contains a `MethodRef` entry
whose `class_index` points at a `Utf8` entry — the tag-mismatch case the
claim requires to fail — yet `parse_class_file` succeeds and returns a
`ClassFile`, consuming the whole input: the parser performs no tag
validation of the index fields inside constant-pool entries (the source
marks the missing check `TODO: Verify validity of constant pool`).  The
spec calls for a hard parse error recording expected tag `Class` and
actual tag `Utf8`. -/
theorem c1_methodref_bad_class_index_parses :
    ∃ cf : ClassFile,
      parseClassFile c1Input = .ok (cf, []) ∧
      cf.constantPool.get 2 = some (.methodRef 1 1) ∧
      cf.constantPool.get 1 = some (.utf8 [0x41]) ∧
      (CPInfo.utf8 [0x41]).tag ≠ CPTag.class_ := by
  have h : parseClassFile c1Input =
      .ok (ClassFile.mk 0 52 ⟨[.utf8 [0x41], .methodRef 1 1, .class_ 1]⟩
        33 3 0 [] [] [] [], []) := rfl
  exact ⟨_, h, rfl, rfl, by decide⟩

/-- **C2.**  The `Long` arm of `RuntimeConstantPool::new` combines the
two halves with `&` instead of `|`: for every pool and every pair of
halves the produced literal's bit pattern is `(h <<< 32) &&& l` — which
is `0` whenever `l < 2^32`, not the concatenation `(h <<< 32) ||| l` the
spec requires.  At the failing input `h = 0, l = 1` the code stores the
long `0` where the claim requires bit pattern `1`. -/
theorem c2_long_entry_bits_use_and_not_or :
    (∀ (cp : ConstantPool) (h l : Nat),
      rtEntry cp (.long h l) =
        .ok (some (.resolvedLiteral (.long (Nat.land (h <<< 32) l))))) ∧
    RuntimeConstantPool.new ⟨[.long 0 1]⟩ =
      .ok ⟨[some (.resolvedLiteral (.long 0))]⟩ ∧
    ((0 : Nat) <<< 32) ||| 1 = 1 ∧
    Nat.land ((0 : Nat) <<< 32) 1 = 0 :=
  ⟨fun _ _ _ => rfl, rfl, by decide, by decide⟩

/-- **C3.**  On the well-formed surrogate pair for U+10000 the decoder's
`&`-for-`|` arithmetic collapses everything to zero:
`to_string` produces four `0x00` bytes instead of the UTF-8 encoding
`F0 90 80 80` of U+10000, and `to_utf16` produces `[0, 0]` instead of
the surrogate pair `[0xD800, 0xDC00]`. -/
theorem c3_surrogate_pair_decodes_to_zeros :
    (ModifiedUtf8String.new surrogatePairU10000).toStr = .ok [0, 0, 0, 0] ∧
    [0, 0, 0, 0] ≠ [0xF0, 0x90, 0x80, 0x80] ∧
    (ModifiedUtf8String.new surrogatePairU10000).toUtf16 = .ok [0, 0] ∧
    [0, 0] ≠ [0xD800, 0xDC00] :=
  ⟨rfl, by decide, rfl, by decide⟩

end JvmParse
